import Mathlib

/-!
# Verification of the concurrent domain-scoped site crawler

Shallow embedding of `src/Desktop/multithreads_crawling/main.py`.

Modeling conventions:
* Python strings are Lean `String`s; all character-level work is done on
  `List Char` (Python strings are code-point sequences, so this is exact for
  the operations used by the source).
* Library calls (`urllib.parse.urlparse`, `urllib.parse.urljoin`, `re.sub`,
  `csv.reader`, the network fetcher, the filesystem) are not part of the
  repository.  `urlparse` and each concrete `re.sub` call site are modeled by
  executable Lean functions following CPython semantics for the exact pattern
  used.  `urljoin`, the fetcher and the filesystem are kept abstract as an
  environment record, since the source only observes their results.
* Python `hash` (used only in the sanitizer fallback names) is an arbitrary
  function parameter `pyHash : String → Nat` standing for `abs(hash(url))`.
-/

namespace Crawler

/-! ## String preliminaries -/

/-- Python whitespace class: the characters matched by `\s` in `re` and
stripped by `str.strip()` in the ASCII range (the source never feeds
non-ASCII whitespace to these calls). -/
def pyWs (c : Char) : Bool :=
  c = ' ' || c = '\t' || c = '\n' || c = '\r' || c = '\x0b' || c = '\x0c'

/-- Drop the longest suffix whose characters satisfy `p`. -/
def dropRightWhileL (p : Char → Bool) (s : List Char) : List Char :=
  (s.reverse.dropWhile p).reverse

/-- Python `str.strip()` (no argument): remove whitespace at both ends. -/
def pyStripL (s : List Char) : List Char :=
  dropRightWhileL pyWs (s.dropWhile pyWs)

/-- Python `str.strip()` on `String`. -/
def pyStrip (s : String) : String := String.mk (pyStripL s.data)

/-- Python `str.strip("/")`: remove `/` at both ends (used on URL paths). -/
def stripSlashes (s : List Char) : List Char :=
  dropRightWhileL (fun c => c = '/') (s.dropWhile (fun c => c = '/'))

/-- Python `a.replace(x, y)` for one-character `x`, `y`: a character map. -/
def replaceCharL (a b : Char) (s : List Char) : List Char :=
  s.map fun c => if c = a then b else c

/-- Lower-case a character sequence (Python `str.lower()` on the ASCII
characters occurring in sanitized file names). -/
def lowerL (s : List Char) : List Char := s.map Char.toLower

/-- Python `needle in haystack` on strings: substring containment. -/
def containsSub : List Char → List Char → Bool
  | [], needle => needle.isEmpty
  | hay@(_ :: tl), needle => needle.isPrefixOf hay || containsSub tl needle

/-- Python `s.startswith(pre)`. -/
def pyStartswith (s pre : String) : Bool := pre.data.isPrefixOf s.data

/-- Split a list at the first occurrence of character `d`:
`some (before, after)` with the delimiter removed, or `none`. -/
def splitFirstL (d : Char) : List Char → Option (List Char × List Char)
  | [] => none
  | c :: cs =>
    if c = d then some ([], cs)
    else
      match splitFirstL d cs with
      | none => none
      | some (a, b) => some (c :: a, b)

/-- Split a list at the last occurrence of character `d`. -/
def splitLastL (d : Char) (u : List Char) : Option (List Char × List Char) :=
  match splitFirstL d u.reverse with
  | none => none
  | some (a, b) => some (b.reverse, a.reverse)

/-! ## `urllib.parse.urlparse`

Model of CPython `urlsplit`/`urlparse` (3.10+): strip the unsafe bytes
tab/CR/LF, split a scheme (leading alphabetic character, scheme characters,
first `:`), split `//netloc` up to the first `/`, `?` or `#`, then split off
the fragment at the first `#` and the query at the first `?`; `urlparse`
additionally splits `;params` off the last path segment for the schemes in
`uses_params`.  The source accesses only `.netloc`, `.path` and `.query`. -/

structure UrlParts where
  scheme : String
  netloc : String
  path : String
  params : String
  query : String
  fragment : String
deriving Repr, DecidableEq

/-- Characters allowed in a URL scheme (CPython `scheme_chars`). -/
def schemeCharOk (c : Char) : Bool :=
  c.isAlpha || c.isDigit || c = '+' || c = '-' || c = '.'

/-- Split a scheme off a URL: CPython takes `url[:i]` for the first `:` at
`i > 0` when the first character is alphabetic and all candidate characters
are scheme characters, lower-casing the scheme. -/
def splitScheme (u : List Char) : List Char × List Char :=
  match splitFirstL ':' u with
  | none => ([], u)
  | some (before, after) =>
    match before with
    | [] => ([], u)
    | c0 :: _ =>
      if c0.isAlpha && before.all schemeCharOk then (before.map Char.toLower, after)
      else ([], u)

/-- Delimiters ending the netloc component. -/
def netlocDelim (c : Char) : Bool := c = '/' || c = '?' || c = '#'

/-- Split `//netloc` off the front of the remainder, if present. -/
def splitNetloc : List Char → List Char × List Char
  | '/' :: '/' :: rest =>
    (rest.takeWhile (fun c => !netlocDelim c), rest.dropWhile (fun c => !netlocDelim c))
  | u => ([], u)

/-- Split the fragment at the first `#` (remainder, fragment). -/
def splitFragmentL (u : List Char) : List Char × List Char :=
  match splitFirstL '#' u with
  | none => (u, [])
  | some p => p

/-- Split the query at the first `?` (path, query). -/
def splitQueryL (u : List Char) : List Char × List Char :=
  match splitFirstL '?' u with
  | none => (u, [])
  | some p => p

/-- CPython `urlsplit` on a character list. -/
def urlsplitL (url : List Char) : UrlParts :=
  let url := url.filter fun c => !(c = '\t' || c = '\r' || c = '\n')
  let sr := splitScheme url
  let nr := splitNetloc sr.2
  let fr := splitFragmentL nr.2
  let qr := splitQueryL fr.1
  { scheme := String.mk sr.1, netloc := String.mk nr.1, path := String.mk qr.1,
    params := "", query := String.mk qr.2, fragment := String.mk fr.2 }

/-- Schemes for which `urlparse` splits `;params` (CPython `uses_params`). -/
def usesParams : List String :=
  ["", "ftp", "hdl", "prospero", "http", "imap", "https", "shttp", "rtsp",
   "rtspu", "sip", "sips", "mms", "sftp", "tel"]

/-- CPython `_splitparams`: split at the first `;` of the last path segment
(after the last `/` if any, else of the whole path). -/
def splitParamsL (p : List Char) : List Char × List Char :=
  match splitLastL '/' p with
  | some (pre, post) =>
    match splitFirstL ';' post with
    | none => (p, [])
    | some (a, b) => (pre ++ '/' :: a, b)
  | none =>
    match splitFirstL ';' p with
    | none => (p, [])
    | some (a, b) => (a, b)

/-- CPython `urlparse` on a character list. -/
def urlparseL (url : List Char) : UrlParts :=
  let sp := urlsplitL url
  if sp.scheme ∈ usesParams && sp.path.data.contains ';' then
    let pr := splitParamsL sp.path.data
    { sp with path := String.mk pr.1, params := String.mk pr.2 }
  else sp

/-- `urllib.parse.urlparse`. -/
def urlparse (url : String) : UrlParts := urlparseL url.data

/-! ## Name sanitizers (`sanitize_filename`, `sanitize_dirname`)

`main.py` lines 67–115.  The `try`/`except` wrappers are unreachable in the
model: every modeled operation is total, and CPython raises there only on
exotic inputs (e.g. invalid IPv6 netlocs) that the model's total `urlparse`
accepts instead. -/

/-- The exclusion keywords for filenames (`main.py` line 19). -/
def EXCLUDE_KEYWORDS : List String := ["pdf", "jpeg", "jpg", "png", "webp"]

/-- Character class of `re.sub(r'[<>:"/\\|?*]', '_', ...)`. -/
def winBad (c : Char) : Bool :=
  c = '<' || c = '>' || c = ':' || c = '"' || c = '/' || c = '\\' ||
  c = '|' || c = '?' || c = '*'

/-- Character class of `re.sub(r'[\s\._-]+', '_', ...)`. -/
def sepClass (c : Char) : Bool := pyWs c || c = '.' || c = '_' || c = '-'

/-- `re.sub(r'[\s\._-]+', '_', s)`: each maximal run of separator characters
becomes a single `_`.  The flag records whether we are inside a run. -/
def collapseSepsGo (inRun : Bool) : List Char → List Char
  | [] => []
  | c :: cs =>
    if sepClass c then
      if inRun then collapseSepsGo true cs else '_' :: collapseSepsGo true cs
    else c :: collapseSepsGo false cs

/-- `re.sub(r'[\s\._-]+', '_', s)`. -/
def collapseSeps (s : List Char) : List Char := collapseSepsGo false s

/-- The sanitized stem of `sanitize_filename` before the empty-name fallback
and the length cap (`main.py` lines 70–87). -/
def sanitizeStemL (url : String) : List Char :=
  let p := urlparse url
  let netloc := replaceCharL '.' '_' p.netloc.data
  let path0 := replaceCharL '.' '_' (replaceCharL '/' '_' (stripSlashes p.path.data))
  let path := if path0.isEmpty then "index".data else path0
  let fname0 :=
    if p.query.data.isEmpty then netloc ++ '_' :: path
    else
      netloc ++ '_' :: path ++ '_' ::
        replaceCharL '&' '_' (replaceCharL '=' '-' (p.query.data.take 50))
  let f1 := fname0.map fun c => if winBad c then '_' else c
  let f2 := collapseSeps f1
  let f3 := f2.dropWhile fun c => c = '_'
  dropRightWhileL (fun c => c = '_') f3

/-- `sanitize_filename` (`main.py` lines 67–97).  `pyHash url` stands for
Python `abs(hash(url))` in the empty-name fallback. -/
def sanitize_filename (pyHash : String → Nat) (url : String) : String :=
  let f4 := sanitizeStemL url
  let f5 := if f4.isEmpty then "url_".data ++ (toString (pyHash url)).data else f4
  String.mk (f5.take (150 - 3) ++ ".md".data)

/-- `sanitize_dirname` (`main.py` lines 99–115). -/
def sanitize_dirname (pyHash : String → Nat) (url : String) : String :=
  let d0 := replaceCharL '.' '_' (urlparse url).netloc.data
  let d1 := d0.map fun c => if winBad c then '_' else c
  let d2 := collapseSeps d1
  let d3 := dropRightWhileL (fun c => c = '_') (d2.dropWhile fun c => c = '_')
  let d4 := if d3.isEmpty then "domain_".data ++ (toString (pyHash url)).data else d3
  String.mk (d4.take 150)

/-- `any(keyword in filename.lower() for keyword in EXCLUDE_KEYWORDS)`
(`main.py` line 230). -/
def hasExcludeKeyword (filename : String) : Bool :=
  EXCLUDE_KEYWORDS.any fun k => containsSub (lowerL filename.data) k.data

/-! ## `clean_markdown` (`main.py` lines 27–43)

Each `re.sub` call site is modeled by an executable scanner with the exact
CPython semantics of its pattern: left-to-right scan, non-overlapping
matches, replacement text not rescanned, greedy/lazy quantifiers with
backtracking as the pattern demands, `MULTILINE` anchors where the flag is
set, `.` never matching a newline, `\s` being `pyWs`.  Scanners that may
consume more than one character per step recurse on a remainder list and are
driven by a fuel argument; one unit of fuel is spent per match or per
skipped character, and every match consumes at least one character, so
`length + 1` fuel always suffices (exhausted fuel returns the remainder
unchanged, which no caller reaches). -/

/-- Match `http[s]?://` at the head (greedy optional `s`), returning the
remainder. -/
def matchHttpPrefix (s : List Char) : Option (List Char) :=
  if "https://".data.isPrefixOf s then some (s.drop 8)
  else if "http://".data.isPrefixOf s then some (s.drop 7)
  else none

/-- Try `!\[([^\]]*)\]\((http[s]?://[^\)]+)\)` at the head; `some rest` on a
match (the replacement is empty). -/
def tryImage : List Char → Option (List Char)
  | '!' :: '[' :: rest =>
    match rest.dropWhile (fun c => c ≠ ']') with
    | ']' :: '(' :: rest2 =>
      match matchHttpPrefix rest2 with
      | none => none
      | some rest3 =>
        let body := rest3.takeWhile fun c => c ≠ ')'
        if body.isEmpty then none
        else
          match rest3.dropWhile (fun c => c ≠ ')') with
          | ')' :: rest4 => some rest4
          | _ => none
    | _ => none
  | _ => none

/-- Generic `re.sub` scanner for an unanchored pattern: `tryRule` returns
`(replacement, remainder)` on a match at the current position; matches are
non-overlapping, found left to right, and replacement text is not
rescanned. -/
def scanGo (tryRule : List Char → Option (List Char × List Char)) :
    Nat → List Char → List Char
  | 0, s => s
  | _ + 1, [] => []
  | n + 1, c :: cs =>
    match tryRule (c :: cs) with
    | some (rep, rest) => rep ++ scanGo tryRule n rest
    | none => c :: scanGo tryRule n cs

/-- Generic `re.sub` scanner for a `MULTILINE` `^`-anchored pattern whose
replacement is empty: `atStart` records whether the current position starts
the string or follows a newline of the original string. -/
def lineScanGo (tryRule : List Char → Option (List Char)) :
    Nat → Bool → List Char → List Char
  | 0, _, s => s
  | _ + 1, _, [] => []
  | n + 1, atStart, c :: cs =>
    if atStart then
      match tryRule (c :: cs) with
      | some rest =>
        lineScanGo tryRule n
          (((c :: cs).take ((c :: cs).length - rest.length)).getLast? = some '\n') rest
      | none => c :: lineScanGo tryRule n (c = '\n') cs
    else c :: lineScanGo tryRule n (c = '\n') cs

/-- Rule 1 as a scanner rule (empty replacement). -/
def imageRule (t : List Char) : Option (List Char × List Char) :=
  (tryImage t).map fun rest => (([] : List Char), rest)

/-- Try `\[([^\]]+)\]\((http[s]?://[^\)]+)\)` at the head; `some (label, rest)`
on a match (the replacement is the label `\1`). -/
def tryLink : List Char → Option (List Char × List Char)
  | '[' :: rest =>
    let label := rest.takeWhile fun c => c ≠ ']'
    if label.isEmpty then none
    else
      match rest.dropWhile (fun c => c ≠ ']') with
      | ']' :: '(' :: rest2 =>
        match matchHttpPrefix rest2 with
        | none => none
        | some rest3 =>
          let body := rest3.takeWhile fun c => c ≠ ')'
          if body.isEmpty then none
          else
            match rest3.dropWhile (fun c => c ≠ ')') with
            | ')' :: rest4 => some (label, rest4)
            | _ => none
      | _ => none
  | _ => none


/-- Try `https?://\S+` at the head; `some rest` on a match. -/
def tryBareUrl (s : List Char) : Option (List Char) :=
  match matchHttpPrefix s with
  | none => none
  | some rest =>
    let body := rest.takeWhile fun c => !pyWs c
    if body.isEmpty then none else some (rest.dropWhile fun c => !pyWs c)

/-- Slide a pair of preceding-character registers across a consumed chunk. -/
def slidePrev (l : List Char) (p : Option Char × Option Char) :
    Option Char × Option Char :=
  l.foldl (fun pr c => (pr.2, some c)) p

/-- `re.sub(r'(?<!\]\()https?://\S+', '', _)` scanner.  `p2`, `p1` are the two
characters of the original string immediately before the current position
(the negative lookbehind rejects a match preceded by the two characters
`](`). -/
def bareUrlsGo : Nat → Option Char → Option Char → List Char → List Char
  | 0, _, _, s => s
  | _ + 1, _, _, [] => []
  | n + 1, p2, p1, c :: cs =>
    if p2 = some ']' && p1 = some '(' then c :: bareUrlsGo n p1 (some c) cs
    else
      match tryBareUrl (c :: cs) with
      | some rest =>
        let consumed := (c :: cs).take ((c :: cs).length - rest.length)
        bareUrlsGo n (slidePrev consumed (p2, p1)).1 (slidePrev consumed (p2, p1)).2 rest
      | none => c :: bareUrlsGo n p1 (some c) cs

/-- Try `\[\^?\d+\]` at the head; `some rest` on a match. -/
def tryFootnoteRef : List Char → Option (List Char)
  | '[' :: rest =>
    let rest1 := match rest with | '^' :: r => r | _ => rest
    let digits := rest1.takeWhile Char.isDigit
    if digits.isEmpty then none
    else
      match rest1.dropWhile Char.isDigit with
      | ']' :: r => some r
      | _ => none
  | _ => none

/-- Rule 4 as a scanner rule (empty replacement). -/
def footnoteRefRule (t : List Char) : Option (List Char × List Char) :=
  (tryFootnoteRef t).map fun rest => (([] : List Char), rest)

/-- Try `\[\^?\d+\]:\s?.*$` at a line start; `some rest` on a match.  The
greedy `\s?` may consume the line's newline (in which case `.*$` runs on the
next line); `.*` never crosses a newline and `$` then always holds. -/
def tryFootnoteDef : List Char → Option (List Char)
  | '[' :: rest0 =>
    let rest1 := match rest0 with | '^' :: r => r | _ => rest0
    let digits := rest1.takeWhile Char.isDigit
    if digits.isEmpty then none
    else
      match rest1.dropWhile Char.isDigit with
      | ']' :: ':' :: rest2 =>
        let rest3 := match rest2 with
          | c :: cs => if pyWs c then cs else c :: cs
          | [] => []
        some (rest3.dropWhile fun c => c ≠ '\n')
      | _ => none
  | _ => none


/-- Match exactly `k` whitespace characters then `>`, returning the
remainder. -/
def wsPrefixThenGt : Nat → List Char → Option (List Char)
  | 0, s =>
    match s with
    | '>' :: r => some r
    | _ => none
  | k + 1, s =>
    match s with
    | c :: cs => if pyWs c then wsPrefixThenGt k cs else none
    | [] => none

/-- Consume one optional whitespace character (`\s?`, greedy). -/
def optWs : List Char → List Char
  | [] => []
  | c :: cs => if pyWs c then cs else c :: cs

/-- Try `\s{0,3}>\s?` at a line start (greedy `\s{0,3}`: longest first). -/
def tryBlockquote (s : List Char) : Option (List Char) :=
  match wsPrefixThenGt 3 s <|> wsPrefixThenGt 2 s <|> wsPrefixThenGt 1 s <|>
      wsPrefixThenGt 0 s with
  | some r => some (optWs r)
  | none => none


/-- Lazy `(.*?)` up to the closing delimiter `d` (earliest close wins, `.`
never matches a newline); `some (content, rest)` on success. -/
def lazyClose (d : List Char) : List Char → Option (List Char × List Char)
  | [] => none
  | c :: cs =>
    if d.isPrefixOf (c :: cs) then some ([], (c :: cs).drop d.length)
    else if c = '\n' then none
    else
      match lazyClose d cs with
      | none => none
      | some (content, rest) => some (c :: content, rest)

/-- Try one emphasis delimiter: `d(.*?)d` at the head. -/
def tryEmphWith (d : List Char) (s : List Char) : Option (List Char × List Char) :=
  if d.isPrefixOf s then lazyClose d (s.drop d.length) else none

/-- Try `(d1|d2)(.*?)\1` at the head (alternation order `d1` then `d2`);
`some (content, rest)` on a match (the replacement is the content `\2`). -/
def tryEmph (d1 d2 : List Char) (s : List Char) : Option (List Char × List Char) :=
  match tryEmphWith d1 s with
  | some r => some r
  | none => tryEmphWith d2 s


/-- Greedy `\s*$`: consume the longest whitespace prefix after which the next
character is a newline or the string ends (backtracking prefers longer). -/
def wsDollar : List Char → Option (List Char)
  | [] => some []
  | c :: cs =>
    if pyWs c then
      match wsDollar cs with
      | some r => some r
      | none => if c = '\n' then some (c :: cs) else none
    else if c = '\n' then some (c :: cs)
    else none

/-- Try `\s*#+\s*$` at a line start: `\s*` must end at the first `#` (no
whitespace character can start `#+`), then greedy `#+`, then `\s*$`. -/
def tryHeading (s : List Char) : Option (List Char) :=
  match s.dropWhile pyWs with
  | '#' :: rest2 => wsDollar (rest2.dropWhile fun c => c = '#')
  | _ => none


/-- Try `\(\)` at the head. -/
def tryParens : List Char → Option (List Char)
  | '(' :: ')' :: rest => some rest
  | _ => none

/-- Rule 10 as a scanner rule (empty replacement). -/
def parenRule (t : List Char) : Option (List Char × List Char) :=
  (tryParens t).map fun rest => (([] : List Char), rest)

/-- Try `\n\s*\n+` at the head: the greedy `\s*\n+` after the first newline
consumes the maximal whitespace run up to and including its last newline
(at least one newline is required). -/
def tryBlankLines : List Char → Option (List Char)
  | '\n' :: cs =>
    match splitLastL '\n' (cs.takeWhile pyWs) with
    | none => none
    | some (_, post) => some (post ++ cs.dropWhile pyWs)
  | _ => none

/-- Rule 11 as a scanner rule (replacement two newlines). -/
def blankLineRule (t : List Char) : Option (List Char × List Char) :=
  (tryBlankLines t).map fun rest => ("\n\n".data, rest)

/-- The `[ \t]` class of the final `re.sub(r'[ \t]+', ' ', _)`. -/
def spTab (c : Char) : Bool := c = ' ' || c = '\t'

/-- `re.sub(r'[ \t]+', ' ', s)`: each maximal run of spaces and tabs becomes
one space.  The flag records whether we are inside a run. -/
def collapseSpacesGo : Bool → List Char → List Char
  | _, [] => []
  | false, c :: cs =>
    if spTab c then ' ' :: collapseSpacesGo true cs else c :: collapseSpacesGo false cs
  | true, c :: cs =>
    if spTab c then collapseSpacesGo true cs else c :: collapseSpacesGo false cs

/-- `re.sub(r'[ \t]+', ' ', s)`. -/
def collapseSpaces (s : List Char) : List Char := collapseSpacesGo false s

/-- Equation of `collapseSpacesGo` outside a run. -/
lemma collapseGo_false_cons (c : Char) (cs : List Char) :
    collapseSpacesGo false (c :: cs) =
      if spTab c = true then ' ' :: collapseSpacesGo true cs
      else c :: collapseSpacesGo false cs := rfl

/-- Equation of `collapseSpacesGo` inside a run. -/
lemma collapseGo_true_cons (c : Char) (cs : List Char) :
    collapseSpacesGo true (c :: cs) =
      if spTab c = true then collapseSpacesGo true cs
      else c :: collapseSpacesGo false cs := rfl

/-- `clean_markdown` on a character list: the twelve `re.sub` calls of
`main.py` lines 31–42 in source order, then `str.strip()`. -/
def cleanList (s0 : List Char) : List Char :=
  let s1 := scanGo imageRule (s0.length + 1) s0
  let s2 := scanGo tryLink (s1.length + 1) s1
  let s3 := bareUrlsGo (s2.length + 1) none none s2
  let s4 := scanGo footnoteRefRule (s3.length + 1) s3
  let s5 := lineScanGo tryFootnoteDef (s4.length + 1) true s4
  let s6 := lineScanGo tryBlockquote (s5.length + 1) true s5
  let s7 := scanGo (tryEmph "**".data "__".data) (s6.length + 1) s6
  let s8 := scanGo (tryEmph "*".data "_".data) (s7.length + 1) s7
  let s9 := lineScanGo tryHeading (s8.length + 1) true s8
  let s10 := scanGo parenRule (s9.length + 1) s9
  let s11 := scanGo blankLineRule (s10.length + 1) s10
  pyStripL (collapseSpaces s11)

/-- `clean_markdown` (`main.py` lines 27–43). -/
def clean_markdown (s : String) : String := String.mk (cleanList s.data)

/-! ## The site crawl (`crawl_website_single_site` + `crawl_page`)

`main.py` lines 136–308.  The crawl runs `max_concurrency` asyncio worker
tasks over one shared `asyncio.Queue` in a single-threaded event loop; all
reads and updates of `crawled_urls`/`queued_urls`/`results` happen in the
synchronous stretches between `await` points (dequeue-to-fetch, and
post-fetch bookkeeping including link enqueueing), so every such block is
atomic.  The model serializes the processing of one queue item into one
`step`, which preserves exactly that per-item bookkeeping discipline; the
`max_concurrency` knob and the semaphore affect only scheduling and fetch
parallelism, which the sequential model elides.

The environment record abstracts the collaborators the source only observes:
* `fetch url = none` models `crawler.arun` (or the surrounding `async with`)
  raising an exception — which the worker's `except` at lines 291–293
  catches, recording nothing; `some r` models a returned `CrawlResult`, with
  `r.links` the hrefs of `result.links.get("internal", [])`.
* `join cur href = none` models `urljoin`/`urlparse` raising inside the
  per-link `try` (lines 248–249, link dropped); `some absUrl` the resolved
  absolute URL, whose host the source then reads via `urlparse` (total in
  the model, so the model applies the concrete `urlparse` to it).
* `write path content = some e` models the file write in
  `process_markdown_and_save` failing with message `e` (`none` = success).
* `mkdir path = some e` models `os.makedirs` failing (lines 166–173).
`urlparse` itself is total in the model, so the `except` branch at lines
218–222 (domain parse failure: mark visited, record nothing) is unreachable;
its effect coincides with the out-of-domain branch it sits next to.

Ghost fields (`processedLog`, `fetchLog`, `enqueueLog`, `writeAttempts`)
are observers only: they record events (URL passed the visited/domain
checks; `crawler.arun` was called at a depth; a link was enqueued with its
discoverer's depth; `process_markdown_and_save` was invoked) and never
influence control flow. -/

/-- The fields of a `crawl4ai` `CrawlResult` the source reads. -/
structure FetchResult where
  success : Bool
  links : List String
  error_message : String
  raw_markdown : String

/-- The abstract environment of one crawl (fetcher, URL resolution,
filesystem, Python string hash). -/
structure CrawlEnv where
  fetch : String → Option FetchResult
  join : String → String → Option String
  write : String → String → Option String
  mkdir : String → Option String
  pyHash : String → Nat

/-- Result of `process_markdown_and_save`: the `{"status": ...}` dict. -/
inductive SaveStatus where
  | ok
  | err (msg : String)
deriving Repr, DecidableEq

/-- `process_markdown_and_save` (`main.py` lines 119–134): clean the
markdown, write `# url`, blank line, body; any failure is caught and
returned as a failed status — this function never raises. -/
def process_markdown_and_save (env : CrawlEnv) (url markdown_content output_path : String) :
    SaveStatus :=
  let cleaned := clean_markdown markdown_content
  match env.write output_path ("# " ++ url ++ "\n\n" ++ cleaned ++ "\n") with
  | none => SaveStatus.ok
  | some e => SaveStatus.err e

/-- The mutable per-site state of `crawl_website_single_site`: the two
membership sets, the FIFO queue of `(url, depth)` pairs (the constant
`start_domain` and `site_output_path` components of `CrawlQueueItem` are
parameters of `step`), and the `results` lists, plus ghost logs. -/
structure CrawlState where
  crawled_urls : List String
  queued_urls : List String
  queue : List (String × Nat)
  success : List String
  failed : List (String × String)
  skipped_by_filter : List String
  processedLog : List String
  fetchLog : List (String × Nat)
  enqueueLog : List (Nat × Nat)
  writeAttempts : List String

/-- One iteration of the per-link loop (`main.py` lines 239–249 and
275–285): resolve the href, keep it only when its host equals the crawl's
start domain and it is in neither membership set, and enqueue it at
`depth + 1`. -/
def enqueueOne (env : CrawlEnv) (domain : String) (d : Nat) (cur : String)
    (st : CrawlState) (href : String) : CrawlState :=
  match env.join cur href with
  | none => st
  | some absUrl =>
    if (urlparse absUrl).netloc = domain then
      if absUrl ∉ st.crawled_urls ∧ absUrl ∉ st.queued_urls then
        { st with queue := st.queue ++ [(absUrl, d + 1)],
                  queued_urls := absUrl :: st.queued_urls,
                  enqueueLog := st.enqueueLog ++ [(d, d + 1)] }
      else st
    else st

/-- The full per-link loop over the page's internal links. -/
def enqueueLinks (env : CrawlEnv) (domain : String) (d : Nat) (cur : String)
    (links : List String) (st : CrawlState) : CrawlState :=
  links.foldl (enqueueOne env domain d cur) st

/-- One queue item processed by the `crawl_page` worker body
(`main.py` lines 203–293). -/
def step (env : CrawlEnv) (domain sitePath : String) (max_depth : Nat)
    (st : CrawlState) : CrawlState :=
  match st.queue with
  | [] => st
  | (u, d) :: rest =>
    let st0 := { st with queue := rest }
    if u ∈ st0.crawled_urls then st0
    else if (urlparse u).netloc ≠ domain then
      { st0 with crawled_urls := u :: st0.crawled_urls }
    else
      let st1 := { st0 with crawled_urls := u :: st0.crawled_urls,
                            processedLog := st0.processedLog ++ [u] }
      let filename := sanitize_filename env.pyHash u
      let output_path := sitePath ++ "/" ++ filename
      if hasExcludeKeyword filename then
        let st2 := { st1 with skipped_by_filter := st1.skipped_by_filter ++ [u] }
        if d < max_depth then
          let st3 := { st2 with fetchLog := st2.fetchLog ++ [(u, d)] }
          match env.fetch u with
          | none => st3
          | some r =>
            if r.success then enqueueLinks env domain d u r.links st3 else st3
        else st2
      else
        let st2 := { st1 with fetchLog := st1.fetchLog ++ [(u, d)] }
        match env.fetch u with
        | none => st2
        | some r =>
          if r.success then
            let st3 := { st2 with writeAttempts := st2.writeAttempts ++ [u] }
            let st4 :=
              match process_markdown_and_save env u r.raw_markdown output_path with
              | SaveStatus.ok => { st3 with success := st3.success ++ [u] }
              | SaveStatus.err e => { st3 with failed := st3.failed ++ [(u, e)] }
            if d < max_depth then enqueueLinks env domain d u r.links st4 else st4
          else { st2 with failed := st2.failed ++ [(u, r.error_message)] }

/-- The worker loop: process queue items until the queue is observed empty
(fuel bounds the number of iterations; every claim is proved for all
fuels, so properties hold at every reachable state of the loop). -/
def run (env : CrawlEnv) (domain sitePath : String) (max_depth : Nat) :
    Nat → CrawlState → CrawlState
  | 0, st => st
  | n + 1, st =>
    match st.queue with
    | [] => st
    | _ :: _ => run env domain sitePath max_depth n (step env domain sitePath max_depth st)

/-- The state after seeding (`main.py` lines 146–150 and 180–181): empty
sets and results, the start URL queued at depth 0 and entered into
`queued_urls`. -/
def initState (start_url : String) : CrawlState :=
  { crawled_urls := [], queued_urls := [start_url], queue := [(start_url, 0)],
    success := [], failed := [], skipped_by_filter := [],
    processedLog := [], fetchLog := [], enqueueLog := [], writeAttempts := [] }

/-- `crawl_website_single_site` (`main.py` lines 136–308): reject a start
URL with no netloc, create the per-site output directory (a failure is
terminal for the site), seed the queue and run the workers.  `fuel` bounds
the worker iterations. -/
def crawl_website_single_site (env : CrawlEnv) (start_url output_dir : String)
    (max_depth fuel : Nat) : CrawlState :=
  let start_domain := (urlparse start_url).netloc
  if start_domain = "" then
    { initState start_url with
      queue := [], queued_urls := [],
      failed := [(start_url, "Could not extract domain from start URL")] }
  else
    let site_output_path := output_dir ++ "/" ++ sanitize_dirname env.pyHash start_url
    match env.mkdir site_output_path with
    | some e =>
      { initState start_url with
        queue := [], queued_urls := [],
        failed := [(start_url, "Cannot create output directory: " ++ e)] }
    | none =>
      run env start_domain site_output_path max_depth fuel (initState start_url)

/-! ## CSV reading and the batch endpoint

`read_urls_from_csv` (`main.py` lines 45–65) iterates `csv.reader` rows;
the model takes the row list directly (`csv.reader` is stdlib parsing of
the uploaded bytes, which the source does not influence).
`crawl_csv_upload_endpoint` (lines 310–376) crawls each URL sequentially;
its per-site `try`/`except` is modeled by an oracle
`Nat → String → Except String CrawlState` giving, per loop index, either
the site's results dict or the message of a raised exception.  The results
mapping `overall_results["site_crawl_results"]` is a Python dict keyed by
URL: assignment replaces the value of an existing key. -/

/-- The validity test of `read_urls_from_csv` lines 54–57: non-empty,
`http://` or `https://` scheme, and a parseable netloc. -/
def validUrl (url : String) : Bool :=
  (pyStartswith url "http://" || pyStartswith url "https://") &&
    (urlparse url).netloc ≠ ""

/-- `read_urls_from_csv` over the `csv.reader` rows: skip empty rows, strip
the first field, keep each valid URL — one output entry per valid row, no
deduplication. -/
def read_urls_from_rows : List (List String) → List String
  | [] => []
  | [] :: rest => read_urls_from_rows rest
  | (f :: _) :: rest =>
    let url := pyStrip f
    if validUrl url then url :: read_urls_from_rows rest
    else read_urls_from_rows rest

/-- A value of the `site_crawl_results` dict: either a site's results dict
or the error entry built in the `except` arm (lines 350–352). -/
inductive SiteEntry where
  | ok (r : CrawlState)
  | err (msg : String)

/-- Python dict assignment `d[k] = v`: replace the value of an existing key
in place, else append the new pair. -/
def dictInsert : List (String × SiteEntry) → String → SiteEntry → List (String × SiteEntry)
  | [], k, v => [(k, v)]
  | (k0, v0) :: rest, k, v =>
    if k0 = k then (k0, v) :: rest else (k0, v0) :: dictInsert rest k v

/-- Python dict lookup `d[k]` (keys are unique, first match). -/
def dictLookup : List (String × SiteEntry) → String → Option SiteEntry
  | [], _ => none
  | (k0, v0) :: rest, k => if k0 = k then some v0 else dictLookup rest k

/-- The entry stored for one site: the results dict on normal return, the
`{"status": "error", ...}` dict when `crawl_website_single_site` raised. -/
def entryFor (res : Except String CrawlState) : SiteEntry :=
  match res with
  | Except.ok r => SiteEntry.ok r
  | Except.error e =>
    SiteEntry.err ("Unexpected error during site processing: " ++ e)

/-- Accumulator of the batch loop: the `site_crawl_results` dict plus a
ghost log of the crawl invocations (one per loop iteration, in order). -/
structure BatchAcc where
  dict : List (String × SiteEntry)
  calls : List String

/-- The `for i, url in enumerate(urls_to_crawl)` loop of
`crawl_csv_upload_endpoint` (lines 340–352): one crawl per list element —
a raised exception is caught and recorded as an error entry for that URL,
and the loop continues with the next site. -/
def batch_loop (oracle : Nat → String → Except String CrawlState) :
    List String → Nat → BatchAcc → BatchAcc
  | [], _, acc => acc
  | u :: rest, i, acc =>
    batch_loop oracle rest (i + 1)
      { dict := dictInsert acc.dict u (entryFor (oracle i u)),
        calls := acc.calls ++ [u] }

/-- The whole batch over the URLs read from the CSV. -/
def crawl_csv_batch (oracle : Nat → String → Except String CrawlState)
    (urls : List String) : BatchAcc :=
  batch_loop oracle urls 0 { dict := [], calls := [] }

/-! ## Generic lemmas about the crawl loop -/

/-- A property preserved by `step` is preserved by any number of worker
iterations. -/
lemma run_preserve (env : CrawlEnv) (dm sp : String) (md : Nat)
    (P : CrawlState → Prop)
    (hstep : ∀ st, P st → P (step env dm sp md st)) :
    ∀ (n : Nat) (st : CrawlState), P st → P (run env dm sp md n st) := by
  intro n
  induction n with
  | zero => intro st h; exact h
  | succ k ih =>
    intro st h
    cases hq : st.queue with
    | nil => simpa only [run, hq] using h
    | cons a l => simpa only [run, hq] using ih _ (hstep st h)

/-- `enqueueOne` changes only the queue, the queued set and the enqueue
log. -/
lemma enqueueOne_parts (e : CrawlEnv) (dm : String) (d : Nat) (cur href : String)
    (st : CrawlState) :
    (enqueueOne e dm d cur st href).success = st.success ∧
    (enqueueOne e dm d cur st href).failed = st.failed ∧
    (enqueueOne e dm d cur st href).skipped_by_filter = st.skipped_by_filter ∧
    (enqueueOne e dm d cur st href).crawled_urls = st.crawled_urls ∧
    (enqueueOne e dm d cur st href).processedLog = st.processedLog ∧
    (enqueueOne e dm d cur st href).fetchLog = st.fetchLog ∧
    (enqueueOne e dm d cur st href).writeAttempts = st.writeAttempts := by
  unfold enqueueOne
  cases e.join cur href with
  | none => exact ⟨rfl, rfl, rfl, rfl, rfl, rfl, rfl⟩
  | some a =>
    dsimp only
    split
    · split
      · exact ⟨rfl, rfl, rfl, rfl, rfl, rfl, rfl⟩
      · exact ⟨rfl, rfl, rfl, rfl, rfl, rfl, rfl⟩
    · exact ⟨rfl, rfl, rfl, rfl, rfl, rfl, rfl⟩

/-- `enqueueLinks` changes only the queue, the queued set and the enqueue
log. -/
lemma enqueueLinks_parts (e : CrawlEnv) (dm : String) (d : Nat) (cur : String) :
    ∀ (links : List String) (st : CrawlState),
    (enqueueLinks e dm d cur links st).success = st.success ∧
    (enqueueLinks e dm d cur links st).failed = st.failed ∧
    (enqueueLinks e dm d cur links st).skipped_by_filter = st.skipped_by_filter ∧
    (enqueueLinks e dm d cur links st).crawled_urls = st.crawled_urls ∧
    (enqueueLinks e dm d cur links st).processedLog = st.processedLog ∧
    (enqueueLinks e dm d cur links st).fetchLog = st.fetchLog ∧
    (enqueueLinks e dm d cur links st).writeAttempts = st.writeAttempts := by
  intro links
  induction links with
  | nil => intro st; exact ⟨rfl, rfl, rfl, rfl, rfl, rfl, rfl⟩
  | cons h t ih =>
    intro st
    have h1 := enqueueOne_parts e dm d cur h st
    have h2 := ih (enqueueOne e dm d cur st h)
    simp only [enqueueLinks, List.foldl_cons] at h2 ⊢
    exact ⟨h2.1.trans h1.1, h2.2.1.trans h1.2.1, h2.2.2.1.trans h1.2.2.1,
      h2.2.2.2.1.trans h1.2.2.2.1, h2.2.2.2.2.1.trans h1.2.2.2.2.1,
      h2.2.2.2.2.2.1.trans h1.2.2.2.2.2.1, h2.2.2.2.2.2.2.trans h1.2.2.2.2.2.2⟩

/-- Every queue entry after `enqueueOne` is an old entry or carries depth
`d + 1`. -/
lemma enqueueOne_queue_mem (e : CrawlEnv) (dm : String) (d : Nat) (cur href : String)
    (st : CrawlState) :
    ∀ p ∈ (enqueueOne e dm d cur st href).queue, p ∈ st.queue ∨ p.2 = d + 1 := by
  intro p hp
  cases hj : e.join cur href with
  | none => simp only [enqueueOne, hj] at hp; exact Or.inl hp
  | some a =>
    simp only [enqueueOne, hj] at hp
    split at hp
    · split at hp
      · simp only [List.mem_append, List.mem_singleton] at hp
        rcases hp with hp | hp
        · exact Or.inl hp
        · subst hp; exact Or.inr rfl
      · exact Or.inl hp
    · exact Or.inl hp

/-- Every enqueue-log entry after `enqueueOne` is an old entry or the pair
`(d, d + 1)`. -/
lemma enqueueOne_log_mem (e : CrawlEnv) (dm : String) (d : Nat) (cur href : String)
    (st : CrawlState) :
    ∀ q ∈ (enqueueOne e dm d cur st href).enqueueLog,
      q ∈ st.enqueueLog ∨ q = (d, d + 1) := by
  intro q hq
  cases hj : e.join cur href with
  | none => simp only [enqueueOne, hj] at hq; exact Or.inl hq
  | some a =>
    simp only [enqueueOne, hj] at hq
    split at hq
    · split at hq
      · simp only [List.mem_append, List.mem_singleton] at hq
        rcases hq with hq | hq
        · exact Or.inl hq
        · exact Or.inr hq
      · exact Or.inl hq
    · exact Or.inl hq

/-- Every queue entry after `enqueueLinks` is an old entry or carries depth
`d + 1`. -/
lemma enqueueLinks_queue_mem (e : CrawlEnv) (dm : String) (d : Nat) (cur : String) :
    ∀ (links : List String) (st : CrawlState),
    ∀ p ∈ (enqueueLinks e dm d cur links st).queue, p ∈ st.queue ∨ p.2 = d + 1 := by
  intro links
  induction links with
  | nil => intro st p hp; exact Or.inl hp
  | cons h t ih =>
    intro st p hp
    simp only [enqueueLinks, List.foldl_cons] at hp
    rcases ih (enqueueOne e dm d cur st h) p hp with hold | hd
    · exact (enqueueOne_queue_mem e dm d cur h st p hold).imp_left id
    · exact Or.inr hd

/-- Every enqueue-log entry after `enqueueLinks` is an old entry or the pair
`(d, d + 1)`. -/
lemma enqueueLinks_log_mem (e : CrawlEnv) (dm : String) (d : Nat) (cur : String) :
    ∀ (links : List String) (st : CrawlState),
    ∀ q ∈ (enqueueLinks e dm d cur links st).enqueueLog,
      q ∈ st.enqueueLog ∨ q = (d, d + 1) := by
  intro links
  induction links with
  | nil => intro st q hq; exact Or.inl hq
  | cons h t ih =>
    intro st q hq
    simp only [enqueueLinks, List.foldl_cons] at hq
    rcases ih (enqueueOne e dm d cur st h) q hq with hold | hd
    · exact (enqueueOne_log_mem e dm d cur h st q hold).imp_left id
    · exact Or.inr hd

/-! ### The possible outcomes of one worker iteration

The following state abbreviations name the intermediate states built inside
`step`; `step_cases` lists, once and for all, the exhaustive case analysis
of one worker iteration, which every invariant proof below reuses. -/

/-- Dequeued URL already visited (`main.py` lines 207–209). -/
def stVisited (st : CrawlState) (rest : List (String × Nat)) : CrawlState :=
  { st with queue := rest }

/-- Dequeued URL out of domain: marked visited, nothing recorded
(lines 211–222). -/
def stSkipDomain (st : CrawlState) (u : String) (rest : List (String × Nat)) :
    CrawlState :=
  { st with queue := rest, crawled_urls := u :: st.crawled_urls }

/-- In-domain URL recorded as filtered, no fetch (depth exhausted,
lines 224–233). -/
def stFiltered (st : CrawlState) (u : String) (rest : List (String × Nat)) :
    CrawlState :=
  { st with
    queue := rest
    crawled_urls := u :: st.crawled_urls
    processedLog := st.processedLog ++ [u]
    skipped_by_filter := st.skipped_by_filter ++ [u] }

/-- Filtered URL whose link-discovery fetch was attempted (lines 233–236). -/
def stFilteredFetch (st : CrawlState) (u : String) (d : Nat)
    (rest : List (String × Nat)) : CrawlState :=
  { st with
    queue := rest
    crawled_urls := u :: st.crawled_urls
    processedLog := st.processedLog ++ [u]
    skipped_by_filter := st.skipped_by_filter ++ [u]
    fetchLog := st.fetchLog ++ [(u, d)] }

/-- Non-filtered in-domain URL after its fetch was attempted
(lines 255–257). -/
def stFetched (st : CrawlState) (u : String) (d : Nat)
    (rest : List (String × Nat)) : CrawlState :=
  { st with
    queue := rest
    crawled_urls := u :: st.crawled_urls
    processedLog := st.processedLog ++ [u]
    fetchLog := st.fetchLog ++ [(u, d)] }

/-- Fetch returned an unsuccessful status: failure recorded
(lines 286–288). -/
def stFetchErr (st : CrawlState) (u : String) (d : Nat)
    (rest : List (String × Nat)) (msg : String) : CrawlState :=
  { st with
    queue := rest
    crawled_urls := u :: st.crawled_urls
    processedLog := st.processedLog ++ [u]
    fetchLog := st.fetchLog ++ [(u, d)]
    failed := st.failed ++ [(u, msg)] }

/-- Fetch succeeded and the write succeeded: success recorded
(lines 259–269). -/
def stWriteOk (st : CrawlState) (u : String) (d : Nat)
    (rest : List (String × Nat)) : CrawlState :=
  { st with
    queue := rest
    crawled_urls := u :: st.crawled_urls
    processedLog := st.processedLog ++ [u]
    fetchLog := st.fetchLog ++ [(u, d)]
    writeAttempts := st.writeAttempts ++ [u]
    success := st.success ++ [u] }

/-- Fetch succeeded but the write failed: failure recorded
(lines 259–271). -/
def stWriteErr (st : CrawlState) (u : String) (d : Nat)
    (rest : List (String × Nat)) (e : String) : CrawlState :=
  { st with
    queue := rest
    crawled_urls := u :: st.crawled_urls
    processedLog := st.processedLog ++ [u]
    fetchLog := st.fetchLog ++ [(u, d)]
    writeAttempts := st.writeAttempts ++ [u]
    failed := st.failed ++ [(u, e)] }

/-- Exhaustive characterization of one worker iteration. -/
lemma step_cases (env : CrawlEnv) (dm sp : String) (md : Nat) (st : CrawlState) :
    (st.queue = [] ∧ step env dm sp md st = st) ∨
    ∃ u d rest, st.queue = (u, d) :: rest ∧
      ((u ∈ st.crawled_urls ∧ step env dm sp md st = stVisited st rest) ∨
       (u ∉ st.crawled_urls ∧ (urlparse u).netloc ≠ dm ∧
         step env dm sp md st = stSkipDomain st u rest) ∨
       (u ∉ st.crawled_urls ∧ (urlparse u).netloc = dm ∧
         hasExcludeKeyword (sanitize_filename env.pyHash u) = true ∧
         ((¬ d < md ∧ step env dm sp md st = stFiltered st u rest) ∨
          (d < md ∧ (env.fetch u = none ∨
             ∃ r, env.fetch u = some r ∧ r.success = false) ∧
            step env dm sp md st = stFilteredFetch st u d rest) ∨
          (d < md ∧ ∃ r, env.fetch u = some r ∧ r.success = true ∧
            step env dm sp md st =
              enqueueLinks env dm d u r.links (stFilteredFetch st u d rest)))) ∨
       (u ∉ st.crawled_urls ∧ (urlparse u).netloc = dm ∧
         hasExcludeKeyword (sanitize_filename env.pyHash u) = false ∧
         ((env.fetch u = none ∧ step env dm sp md st = stFetched st u d rest) ∨
          (∃ r, env.fetch u = some r ∧ r.success = false ∧
            step env dm sp md st = stFetchErr st u d rest r.error_message) ∨
          (∃ r, env.fetch u = some r ∧ r.success = true ∧
            process_markdown_and_save env u r.raw_markdown
              (sp ++ "/" ++ sanitize_filename env.pyHash u) = SaveStatus.ok ∧
            ((d < md ∧ step env dm sp md st =
                enqueueLinks env dm d u r.links (stWriteOk st u d rest)) ∨
             (¬ d < md ∧ step env dm sp md st = stWriteOk st u d rest))) ∨
          (∃ r e, env.fetch u = some r ∧ r.success = true ∧
            process_markdown_and_save env u r.raw_markdown
              (sp ++ "/" ++ sanitize_filename env.pyHash u) = SaveStatus.err e ∧
            ((d < md ∧ step env dm sp md st =
                enqueueLinks env dm d u r.links (stWriteErr st u d rest e)) ∨
             (¬ d < md ∧ step env dm sp md st = stWriteErr st u d rest e)))))) := by
  cases hq : st.queue with
  | nil =>
    left
    refine ⟨rfl, ?_⟩
    unfold step
    rw [hq]
  | cons p rest =>
    obtain ⟨u, d⟩ := p
    right
    refine ⟨u, d, rest, rfl, ?_⟩
    have hstep : step env dm sp md st =
        (if u ∈ st.crawled_urls then stVisited st rest
         else if (urlparse u).netloc ≠ dm then stSkipDomain st u rest
         else if hasExcludeKeyword (sanitize_filename env.pyHash u) then
           (if d < md then
              match env.fetch u with
              | none => stFilteredFetch st u d rest
              | some r =>
                if r.success then
                  enqueueLinks env dm d u r.links (stFilteredFetch st u d rest)
                else stFilteredFetch st u d rest
            else stFiltered st u rest)
         else
           match env.fetch u with
           | none => stFetched st u d rest
           | some r =>
             if r.success then
               (if d < md then
                  enqueueLinks env dm d u r.links
                    (match process_markdown_and_save env u r.raw_markdown
                        (sp ++ "/" ++ sanitize_filename env.pyHash u) with
                     | SaveStatus.ok => stWriteOk st u d rest
                     | SaveStatus.err e => stWriteErr st u d rest e)
                else
                  (match process_markdown_and_save env u r.raw_markdown
                      (sp ++ "/" ++ sanitize_filename env.pyHash u) with
                   | SaveStatus.ok => stWriteOk st u d rest
                   | SaveStatus.err e => stWriteErr st u d rest e))
             else stFetchErr st u d rest r.error_message) := by
      unfold step
      rw [hq]
      dsimp only [stVisited, stSkipDomain, stFiltered, stFilteredFetch,
        stFetched, stFetchErr, stWriteOk, stWriteErr]
    rw [hstep]
    by_cases hc : u ∈ st.crawled_urls
    · exact Or.inl ⟨hc, by rw [if_pos hc]⟩
    · by_cases hdom : (urlparse u).netloc ≠ dm
      · exact Or.inr (Or.inl ⟨hc, hdom, by rw [if_neg hc, if_pos hdom]⟩)
      · push_neg at hdom
        by_cases hex : hasExcludeKeyword (sanitize_filename env.pyHash u) = true
        · refine Or.inr (Or.inr (Or.inl ⟨hc, hdom, hex, ?_⟩))
          rw [if_neg hc, if_neg (by simpa using hdom), if_pos hex]
          by_cases hd : d < md
          · rw [if_pos hd]
            cases hf : env.fetch u with
            | none => exact Or.inr (Or.inl ⟨hd, Or.inl rfl, rfl⟩)
            | some r =>
              by_cases hs : r.success
              · refine Or.inr (Or.inr ⟨hd, r, rfl, hs, ?_⟩)
                dsimp only
                rw [if_pos hs]
              · refine Or.inr (Or.inl ⟨hd, Or.inr ⟨r, rfl, by simpa using hs⟩, ?_⟩)
                dsimp only
                rw [if_neg hs]
          · rw [if_neg hd]
            exact Or.inl ⟨hd, rfl⟩
        · simp only [Bool.not_eq_true] at hex
          refine Or.inr (Or.inr (Or.inr ⟨hc, hdom, hex, ?_⟩))
          rw [if_neg hc, if_neg (by simpa using hdom), hex]
          simp only [Bool.false_eq_true, if_false]
          cases hf : env.fetch u with
          | none => exact Or.inl ⟨rfl, rfl⟩
          | some r =>
            by_cases hs : r.success
            · cases hw : process_markdown_and_save env u r.raw_markdown
                  (sp ++ "/" ++ sanitize_filename env.pyHash u) with
              | ok =>
                by_cases hd : d < md
                · refine Or.inr (Or.inr (Or.inl ⟨r, rfl, hs, hw, Or.inl ⟨hd, ?_⟩⟩))
                  dsimp only
                  rw [if_pos hs, if_pos hd, hw]
                · refine Or.inr (Or.inr (Or.inl ⟨r, rfl, hs, hw, Or.inr ⟨hd, ?_⟩⟩))
                  dsimp only
                  rw [if_pos hs, if_neg hd, hw]
              | err e =>
                by_cases hd : d < md
                · refine Or.inr (Or.inr (Or.inr ⟨r, e, rfl, hs, hw, Or.inl ⟨hd, ?_⟩⟩))
                  dsimp only
                  rw [if_pos hs, if_pos hd, hw]
                · refine Or.inr (Or.inr (Or.inr ⟨r, e, rfl, hs, hw, Or.inr ⟨hd, ?_⟩⟩))
                  dsimp only
                  rw [if_pos hs, if_neg hd, hw]
            · refine Or.inr (Or.inl ⟨r, rfl, by simpa using hs, ?_⟩)
              dsimp only
              rw [if_neg hs]

/-! ## C1: at-most-once visit -/

/-- The union of the per-site result lists, as the list of recorded URLs. -/
def recordedUrls (st : CrawlState) : List String :=
  st.success ++ st.failed.map Prod.fst ++ st.skipped_by_filter

/-- C1 invariant: the recorded URLs are pairwise distinct and all already
marked visited. -/
def InvOnce (st : CrawlState) : Prop :=
  (recordedUrls st).Nodup ∧ ∀ u ∈ recordedUrls st, u ∈ st.crawled_urls

/-- Appending at the end of the third of three concatenated lists is a
permutation of consing. -/
lemma perm_snoc3 (A B C : List String) (u : String) :
    List.Perm (A ++ (B ++ (C ++ [u]))) (u :: (A ++ (B ++ C))) := by
  have h1 : A ++ (B ++ (C ++ [u])) = (A ++ (B ++ C)) ++ [u] := by
    simp [List.append_assoc]
  rw [h1]
  exact List.perm_append_singleton u (A ++ (B ++ C))

/-- Inserting after the second of three concatenated lists is a permutation
of consing. -/
lemma perm_ins3 (A B C : List String) (u : String) :
    List.Perm (A ++ (B ++ (u :: C))) (u :: (A ++ (B ++ C))) := by
  have h1 : A ++ (B ++ (u :: C)) = (A ++ B) ++ (u :: C) := by
    simp [List.append_assoc]
  have h2 : A ++ (B ++ C) = (A ++ B) ++ C := by simp [List.append_assoc]
  rw [h1, h2]
  exact List.perm_middle

/-- `InvOnce` transfers along equal result lists and a larger visited set. -/
lemma invOnce_congr (st1 st2 : CrawlState)
    (hsuc : st2.success = st1.success) (hfail : st2.failed = st1.failed)
    (hskip : st2.skipped_by_filter = st1.skipped_by_filter)
    (hcr : ∀ v ∈ st1.crawled_urls, v ∈ st2.crawled_urls)
    (h : InvOnce st1) : InvOnce st2 := by
  have hrec : recordedUrls st2 = recordedUrls st1 := by
    simp only [recordedUrls, hsuc, hfail, hskip]
  refine ⟨?_, ?_⟩
  · rw [hrec]; exact h.1
  · intro v hv
    rw [hrec] at hv
    exact hcr v (h.2 v hv)

/-- `InvOnce` is preserved when a URL not yet visited is recorded once and
marked visited. -/
lemma invOnce_extend (st st2 : CrawlState) (u : String)
    (h : InvOnce st) (hu : u ∉ st.crawled_urls)
    (hperm : List.Perm (recordedUrls st2) (u :: recordedUrls st))
    (hcrawl : st2.crawled_urls = u :: st.crawled_urls) : InvOnce st2 := by
  have hnotrec : u ∉ recordedUrls st := fun hmem => hu (h.2 u hmem)
  constructor
  · exact (hperm.nodup_iff).2 (List.nodup_cons.2 ⟨hnotrec, h.1⟩)
  · intro v hv
    have hv2 : v ∈ u :: recordedUrls st := hperm.subset hv
    rw [hcrawl]
    rcases List.mem_cons.1 hv2 with hvu | hvo
    · exact List.mem_cons.2 (Or.inl hvu)
    · exact List.mem_cons.2 (Or.inr (h.2 v hvo))

lemma invOnce_stFiltered (st : CrawlState) (u : String) (rest : List (String × Nat))
    (h : InvOnce st) (hu : u ∉ st.crawled_urls) : InvOnce (stFiltered st u rest) := by
  refine invOnce_extend st _ u h hu ?_ rfl
  simp only [recordedUrls, stFiltered, List.append_assoc]
  exact perm_snoc3 _ _ _ u

lemma invOnce_stFilteredFetch (st : CrawlState) (u : String) (d : Nat)
    (rest : List (String × Nat))
    (h : InvOnce st) (hu : u ∉ st.crawled_urls) : InvOnce (stFilteredFetch st u d rest) := by
  refine invOnce_extend st _ u h hu ?_ rfl
  simp only [recordedUrls, stFilteredFetch, List.append_assoc]
  exact perm_snoc3 _ _ _ u

lemma invOnce_stFetched (st : CrawlState) (u : String) (d : Nat)
    (rest : List (String × Nat)) (h : InvOnce st) : InvOnce (stFetched st u d rest) := by
  refine invOnce_congr st _ rfl rfl rfl ?_ h
  intro v hv
  exact List.mem_cons.2 (Or.inr hv)

lemma invOnce_stFetchErr (st : CrawlState) (u : String) (d : Nat)
    (rest : List (String × Nat)) (msg : String)
    (h : InvOnce st) (hu : u ∉ st.crawled_urls) : InvOnce (stFetchErr st u d rest msg) := by
  refine invOnce_extend st _ u h hu ?_ rfl
  simp only [recordedUrls, stFetchErr, List.map_append, List.map_cons, List.map_nil,
    List.append_assoc]
  exact perm_ins3 _ _ _ u

lemma invOnce_stWriteOk (st : CrawlState) (u : String) (d : Nat)
    (rest : List (String × Nat))
    (h : InvOnce st) (hu : u ∉ st.crawled_urls) : InvOnce (stWriteOk st u d rest) := by
  refine invOnce_extend st _ u h hu ?_ rfl
  simp only [recordedUrls, stWriteOk, List.append_assoc]
  exact List.perm_middle

lemma invOnce_stWriteErr (st : CrawlState) (u : String) (d : Nat)
    (rest : List (String × Nat)) (e : String)
    (h : InvOnce st) (hu : u ∉ st.crawled_urls) : InvOnce (stWriteErr st u d rest e) := by
  refine invOnce_extend st _ u h hu ?_ rfl
  simp only [recordedUrls, stWriteErr, List.map_append, List.map_cons, List.map_nil,
    List.append_assoc]
  exact perm_ins3 _ _ _ u

/-- `InvOnce` carries over `enqueueLinks` (which touches no result list). -/
lemma invOnce_enqueueLinks (e : CrawlEnv) (dm : String) (d : Nat) (cur : String)
    (links : List String) (st : CrawlState) (h : InvOnce st) :
    InvOnce (enqueueLinks e dm d cur links st) := by
  have hp := enqueueLinks_parts e dm d cur links st
  refine invOnce_congr st _ hp.1 hp.2.1 hp.2.2.1 ?_ h
  intro v hv
  rw [hp.2.2.2.1]
  exact hv

/-- One worker iteration preserves `InvOnce`. -/
lemma invOnce_step (env : CrawlEnv) (dm sp : String) (md : Nat) (st : CrawlState)
    (h : InvOnce st) : InvOnce (step env dm sp md st) := by
  rcases step_cases env dm sp md st with ⟨hq, heq⟩ | ⟨u, d, rest, hq, hcase⟩
  · rw [heq]; exact h
  · rcases hcase with ⟨hc, heq⟩ | ⟨hc, hdom, heq⟩ | ⟨hc, hdom, hex, hsub⟩ |
      ⟨hc, hdom, hex, hsub⟩
    · rw [heq]; exact ⟨h.1, h.2⟩
    · rw [heq]
      refine invOnce_congr st _ rfl rfl rfl ?_ h
      intro v hv
      exact List.mem_cons.2 (Or.inr hv)
    · rcases hsub with ⟨hd, heq⟩ | ⟨hd, hf, heq⟩ | ⟨hd, r, hf, hs, heq⟩
      · rw [heq]; exact invOnce_stFiltered st u rest h hc
      · rw [heq]; exact invOnce_stFilteredFetch st u d rest h hc
      · rw [heq]
        exact invOnce_enqueueLinks env dm d u r.links _
          (invOnce_stFilteredFetch st u d rest h hc)
    · rcases hsub with ⟨hf, heq⟩ | ⟨r, hf, hs, heq⟩ | ⟨r, hf, hs, hw, hsub2⟩ |
        ⟨r, e2, hf, hs, hw, hsub2⟩
      · rw [heq]; exact invOnce_stFetched st u d rest h
      · rw [heq]; exact invOnce_stFetchErr st u d rest r.error_message h hc
      · rcases hsub2 with ⟨hd, heq⟩ | ⟨hd, heq⟩
        · rw [heq]
          exact invOnce_enqueueLinks env dm d u r.links _
            (invOnce_stWriteOk st u d rest h hc)
        · rw [heq]; exact invOnce_stWriteOk st u d rest h hc
      · rcases hsub2 with ⟨hd, heq⟩ | ⟨hd, heq⟩
        · rw [heq]
          exact invOnce_enqueueLinks env dm d u r.links _
            (invOnce_stWriteErr st u d rest e2 h hc)
        · rw [heq]; exact invOnce_stWriteErr st u d rest e2 h hc

lemma invOnce_init (s : String) : InvOnce (initState s) := by
  constructor
  · simp [recordedUrls, initState]
  · intro u hu
    simp [recordedUrls, initState] at hu

/-- C1.  For any environment, start URL, output directory, depth bound and
number of worker iterations, each URL appears at most once across the union
of the `success`, `failed` and `skipped_by_filter` lists of the crawl's
results: once dequeued a URL is marked visited before any fetch decision,
and a URL in the visited or queued sets is never enqueued again. -/
theorem at_most_once_visit (env : CrawlEnv) (start_url output_dir : String)
    (max_depth fuel : Nat) :
    (recordedUrls (crawl_website_single_site env start_url output_dir max_depth fuel)).Nodup := by
  unfold crawl_website_single_site
  by_cases h0 : (urlparse start_url).netloc = ""
  · rw [if_pos h0]
    simp [recordedUrls, initState]
  · rw [if_neg h0]
    dsimp only
    cases hm : env.mkdir (output_dir ++ "/" ++ sanitize_dirname env.pyHash start_url) with
    | some e =>
      simp [recordedUrls, initState]
    | none =>
      exact (run_preserve env _ _ max_depth InvOnce
        (fun st hst => invOnce_step env _ _ max_depth st hst) fuel (initState start_url)
        (invOnce_init start_url)).1

/-! ## C2: domain containment -/

/-- C2 invariant: every URL in `success` or `failed` has the crawl's start
domain as its host. -/
def InvDomain (dm : String) (st : CrawlState) : Prop :=
  ∀ u, (u ∈ st.success ∨ u ∈ st.failed.map Prod.fst) → (urlparse u).netloc = dm

/-- One worker iteration preserves `InvDomain`: a URL is recorded in
`success` or `failed` only after the dequeue-time host check passed. -/
lemma invDomain_step (env : CrawlEnv) (dm sp : String) (md : Nat) (st : CrawlState)
    (h : InvDomain dm st) : InvDomain dm (step env dm sp md st) := by
  rcases step_cases env dm sp md st with ⟨hq, heq⟩ | ⟨u, d, rest, hq, hcase⟩
  · rw [heq]; exact h
  · rcases hcase with ⟨hc, heq⟩ | ⟨hc, hdom, heq⟩ | ⟨hc, hdom, hex, hsub⟩ |
      ⟨hc, hdom, hex, hsub⟩
    · rw [heq]; exact h
    · rw [heq]; exact h
    · rcases hsub with ⟨hd, heq⟩ | ⟨hd, hf, heq⟩ | ⟨hd, r, hf, hs, heq⟩
      · rw [heq]; exact h
      · rw [heq]; exact h
      · rw [heq]
        have hp := enqueueLinks_parts env dm d u r.links (stFilteredFetch st u d rest)
        intro v hv
        rw [hp.1, hp.2.1] at hv
        exact h v hv
    · rcases hsub with ⟨hf, heq⟩ | ⟨r, hf, hs, heq⟩ | ⟨r, hf, hs, hw, hsub2⟩ |
        ⟨r, e2, hf, hs, hw, hsub2⟩
      · rw [heq]; exact h
      · rw [heq]
        intro v hv
        rcases hv with hv | hv
        · exact h v (Or.inl hv)
        · simp only [stFetchErr, List.map_append, List.map_cons, List.map_nil,
            List.mem_append, List.mem_singleton] at hv
          rcases hv with hv | hv
          · exact h v (Or.inr (List.mem_map.2 (by
              rcases List.mem_map.1 hv with ⟨p, hp1, hp2⟩
              exact ⟨p, hp1, hp2⟩)))
          · subst hv; exact hdom
      · have hrec : ∀ st2 : CrawlState,
            st2.success = st.success ++ [u] → st2.failed = st.failed →
            InvDomain dm st2 := by
          intro st2 hsuc hfail v hv
          rcases hv with hv | hv
          · rw [hsuc] at hv
            rcases List.mem_append.1 hv with hv | hv
            · exact h v (Or.inl hv)
            · rw [List.mem_singleton] at hv
              subst hv; exact hdom
          · rw [hfail] at hv
            exact h v (Or.inr hv)
        rcases hsub2 with ⟨hd, heq⟩ | ⟨hd, heq⟩
        · rw [heq]
          have hp := enqueueLinks_parts env dm d u r.links (stWriteOk st u d rest)
          exact hrec _ hp.1 hp.2.1
        · rw [heq]
          exact hrec _ rfl rfl
      · have hrec : ∀ st2 : CrawlState,
            st2.success = st.success → st2.failed = st.failed ++ [(u, e2)] →
            InvDomain dm st2 := by
          intro st2 hsuc hfail v hv
          rcases hv with hv | hv
          · rw [hsuc] at hv
            exact h v (Or.inl hv)
          · rw [hfail] at hv
            simp only [List.map_append, List.map_cons, List.map_nil,
              List.mem_append, List.mem_singleton] at hv
            rcases hv with hv | hv
            · exact h v (Or.inr hv)
            · subst hv; exact hdom
        rcases hsub2 with ⟨hd, heq⟩ | ⟨hd, heq⟩
        · rw [heq]
          have hp := enqueueLinks_parts env dm d u r.links (stWriteErr st u d rest e2)
          exact hrec _ hp.1 hp.2.1
        · rw [heq]
          exact hrec _ rfl rfl

/-- C2.  No URL whose host differs from the start URL's host ever appears in
the `success` or `failed` lists of a site crawl: out-of-domain links are
never enqueued, and a dequeued out-of-domain URL is marked visited and
silently skipped. -/
theorem domain_containment (env : CrawlEnv) (start_url output_dir : String)
    (max_depth fuel : Nat) (u : String)
    (hu : u ∈ (crawl_website_single_site env start_url output_dir max_depth fuel).success ∨
      u ∈ (crawl_website_single_site env start_url output_dir max_depth fuel).failed.map
        Prod.fst) :
    (urlparse u).netloc = (urlparse start_url).netloc := by
  revert hu
  unfold crawl_website_single_site
  by_cases h0 : (urlparse start_url).netloc = ""
  · rw [if_pos h0]
    intro hu
    rcases hu with hu | hu
    · simp [initState] at hu
    · simp [initState] at hu
      subst hu; rfl
  · rw [if_neg h0]
    dsimp only
    cases hm : env.mkdir (output_dir ++ "/" ++ sanitize_dirname env.pyHash start_url) with
    | some e =>
      intro hu
      rcases hu with hu | hu
      · simp [initState] at hu
      · simp [initState] at hu
        subst hu; rfl
    | none =>
      intro hu
      refine run_preserve env _ _ max_depth (InvDomain (urlparse start_url).netloc)
        (fun st hst => invDomain_step env _ _ max_depth st hst) fuel (initState start_url)
        ?_ u hu
      intro v hv
      rcases hv with hv | hv
      · simp [initState] at hv
      · simp [initState] at hv

/-- Witness for C2 at a concrete crawl in which the seed is saved. -/
def envSave : CrawlEnv where
  fetch := fun _ =>
    some { success := true, links := [], error_message := "", raw_markdown := "hello" }
  join := fun _ href => some href
  write := fun _ _ => none
  mkdir := fun _ => none
  pyHash := fun _ => 0

theorem domain_containment_witness :
    ("http://a.com/" ∈ (crawl_website_single_site envSave "http://a.com/" "/out" 0 2).success ∨
      "http://a.com/" ∈ (crawl_website_single_site envSave "http://a.com/" "/out" 0 2).failed.map
        Prod.fst) ∧
    (urlparse "http://a.com/").netloc = (urlparse "http://a.com/").netloc := by
  have hsucc : (crawl_website_single_site envSave "http://a.com/" "/out" 0 2).success =
      ["http://a.com/"] := by decide
  have hmem : "http://a.com/" ∈
      (crawl_website_single_site envSave "http://a.com/" "/out" 0 2).success := by
    rw [hsucc]; exact List.mem_singleton.2 rfl
  exact ⟨Or.inl hmem,
    domain_containment envSave "http://a.com/" "/out" 0 2 "http://a.com/" (Or.inl hmem)⟩

/-! ## C3: depth bookkeeping -/

/-- C3 invariant: queued depths are bounded by `md`, every fetch happened at
depth at most `md`, and every enqueued link's recorded depth is its
discoverer's depth plus one, the discoverer being strictly below `md`. -/
def InvDepth (md : Nat) (st : CrawlState) : Prop :=
  (∀ p ∈ st.queue, p.2 ≤ md) ∧ (∀ p ∈ st.fetchLog, p.2 ≤ md) ∧
    (∀ q ∈ st.enqueueLog, q.2 = q.1 + 1 ∧ q.1 < md)

/-- One worker iteration preserves `InvDepth`. -/
lemma invDepth_step (env : CrawlEnv) (dm sp : String) (md : Nat) (st : CrawlState)
    (h : InvDepth md st) : InvDepth md (step env dm sp md st) := by
  rcases step_cases env dm sp md st with ⟨hq, heq⟩ | ⟨u, d, rest, hq, hcase⟩
  · rw [heq]; exact h
  · have hrest : ∀ p ∈ rest, p.2 ≤ md := fun p hp => h.1 p (hq ▸ List.mem_cons.2 (Or.inr hp))
    have hd0 : d ≤ md := h.1 (u, d) (hq ▸ List.mem_cons.2 (Or.inl rfl))
    have hfl : ∀ p ∈ st.fetchLog ++ [(u, d)], p.2 ≤ md := by
      intro p hp
      rcases List.mem_append.1 hp with hp | hp
      · exact h.2.1 p hp
      · rw [List.mem_singleton] at hp
        subst hp; exact hd0
    have henq : ∀ (links : List String) (stb : CrawlState),
        (∀ p ∈ stb.queue, p.2 ≤ md) → (∀ p ∈ stb.fetchLog, p.2 ≤ md) →
        (∀ q ∈ stb.enqueueLog, q.2 = q.1 + 1 ∧ q.1 < md) → d < md →
        InvDepth md (enqueueLinks env dm d u links stb) := by
      intro links stb h1 h2 h3 hdlt
      refine ⟨?_, ?_, ?_⟩
      · intro p hp
        rcases enqueueLinks_queue_mem env dm d u links stb p hp with hp | hp
        · exact h1 p hp
        · rw [hp]; exact hdlt
      · intro p hp
        rw [(enqueueLinks_parts env dm d u links stb).2.2.2.2.2.1] at hp
        exact h2 p hp
      · intro q hqq
        rcases enqueueLinks_log_mem env dm d u links stb q hqq with hqq | hqq
        · exact h3 q hqq
        · rw [hqq]; exact ⟨rfl, hdlt⟩
    rcases hcase with ⟨hc, heq⟩ | ⟨hc, hdom, heq⟩ | ⟨hc, hdom, hex, hsub⟩ |
      ⟨hc, hdom, hex, hsub⟩
    · rw [heq]; exact ⟨hrest, h.2.1, h.2.2⟩
    · rw [heq]; exact ⟨hrest, h.2.1, h.2.2⟩
    · rcases hsub with ⟨hd, heq⟩ | ⟨hd, hf, heq⟩ | ⟨hd, r, hf, hs, heq⟩
      · rw [heq]; exact ⟨hrest, h.2.1, h.2.2⟩
      · rw [heq]; exact ⟨hrest, hfl, h.2.2⟩
      · rw [heq]
        exact henq r.links (stFilteredFetch st u d rest) hrest hfl h.2.2 hd
    · rcases hsub with ⟨hf, heq⟩ | ⟨r, hf, hs, heq⟩ | ⟨r, hf, hs, hw, hsub2⟩ |
        ⟨r, e2, hf, hs, hw, hsub2⟩
      · rw [heq]; exact ⟨hrest, hfl, h.2.2⟩
      · rw [heq]; exact ⟨hrest, hfl, h.2.2⟩
      · rcases hsub2 with ⟨hd, heq⟩ | ⟨hd, heq⟩
        · rw [heq]
          exact henq r.links (stWriteOk st u d rest) hrest hfl h.2.2 hd
        · rw [heq]; exact ⟨hrest, hfl, h.2.2⟩
      · rcases hsub2 with ⟨hd, heq⟩ | ⟨hd, heq⟩
        · rw [heq]
          exact henq r.links (stWriteErr st u d rest e2) hrest hfl h.2.2 hd
        · rw [heq]; exact ⟨hrest, hfl, h.2.2⟩

/-- C3.  Every fetch of a site crawl happens at recorded depth at most
`max_depth`, and every enqueued link's recorded depth is its discovering
page's depth plus one, links being enqueued only when the discoverer's depth
is strictly below `max_depth`. -/
theorem depth_monotonicity (env : CrawlEnv) (start_url output_dir : String)
    (max_depth fuel : Nat) :
    (∀ p ∈ (crawl_website_single_site env start_url output_dir max_depth fuel).fetchLog,
      p.2 ≤ max_depth) ∧
    (∀ q ∈ (crawl_website_single_site env start_url output_dir max_depth fuel).enqueueLog,
      q.2 = q.1 + 1 ∧ q.1 < max_depth) := by
  unfold crawl_website_single_site
  by_cases h0 : (urlparse start_url).netloc = ""
  · rw [if_pos h0]
    constructor
    · intro p hp; simp [initState] at hp
    · intro q hqq; simp [initState] at hqq
  · rw [if_neg h0]
    dsimp only
    cases hm : env.mkdir (output_dir ++ "/" ++ sanitize_dirname env.pyHash start_url) with
    | some e =>
      constructor
      · intro p hp; simp [initState] at hp
      · intro q hqq; simp [initState] at hqq
    | none =>
      have hinit : InvDepth max_depth (initState start_url) := by
        refine ⟨?_, ?_, ?_⟩
        · intro p hp
          simp only [initState, List.mem_singleton] at hp
          rw [hp]
          exact Nat.zero_le max_depth
        · intro p hp; simp [initState] at hp
        · intro q hqq; simp [initState] at hqq
      have hres := run_preserve env (urlparse start_url).netloc
        (output_dir ++ "/" ++ sanitize_dirname env.pyHash start_url) max_depth
        (InvDepth max_depth)
        (fun st hst => invDepth_step env (urlparse start_url).netloc
          (output_dir ++ "/" ++ sanitize_dirname env.pyHash start_url) max_depth st hst)
        fuel (initState start_url) hinit
      exact ⟨hres.2.1, hres.2.2⟩

/-- Witness for C3 at a concrete crawl that enqueues and fetches a link. -/
def envLink : CrawlEnv where
  fetch := fun u =>
    if u = "http://a.com/" then
      some { success := true, links := ["http://a.com/x"], error_message := "", raw_markdown := "hi" }
    else
      some { success := false, links := [], error_message := "nope", raw_markdown := "" }
  join := fun _ href => some href
  write := fun _ _ => none
  mkdir := fun _ => none
  pyHash := fun _ => 0

theorem depth_monotonicity_witness :
    (("http://a.com/x", 1) ∈
      (crawl_website_single_site envLink "http://a.com/" "/out" 1 3).fetchLog ∧
      (1 : Nat) ≤ 1) ∧
    ((0, 1) ∈ (crawl_website_single_site envLink "http://a.com/" "/out" 1 3).enqueueLog ∧
      (1 : Nat) = 0 + 1 ∧ (0 : Nat) < 1) := by
  have hfl : (crawl_website_single_site envLink "http://a.com/" "/out" 1 3).fetchLog =
      [("http://a.com/", 0), ("http://a.com/x", 1)] := by decide
  have hel : (crawl_website_single_site envLink "http://a.com/" "/out" 1 3).enqueueLog =
      [(0, 1)] := by decide
  have hm1 : ("http://a.com/x", 1) ∈
      (crawl_website_single_site envLink "http://a.com/" "/out" 1 3).fetchLog := by
    rw [hfl]; exact List.mem_cons.2 (Or.inr (List.mem_singleton.2 rfl))
  have hm2 : (0, 1) ∈
      (crawl_website_single_site envLink "http://a.com/" "/out" 1 3).enqueueLog := by
    rw [hel]; exact List.mem_singleton.2 rfl
  exact ⟨⟨hm1, (depth_monotonicity envLink "http://a.com/" "/out" 1 3).1
      ("http://a.com/x", 1) hm1⟩,
    ⟨hm2, (depth_monotonicity envLink "http://a.com/" "/out" 1 3).2 (0, 1) hm2⟩⟩

/-! ## C4: page outcomes and the failed list

The claim says a fetch that *raises* also produces a `failed` record.  It
does not: a raised exception lands in the worker's catch-all handler
(`main.py` lines 291–293), which prints and moves on — the URL was already
marked visited, and no list records it.  The counterexample below exhibits
this; the amended theorem states the accounting that does hold. -/

/-- An environment whose fetches always raise (`crawler.arun` throwing). -/
def envRaise : CrawlEnv where
  fetch := fun _ => none
  join := fun _ href => some href
  write := fun _ _ => none
  mkdir := fun _ => none
  pyHash := fun _ => 0

/-- C4 counterexample: the seed is dequeued in-domain and its fetch raises,
yet `failed` (and every other result list) stays empty — the outcome is
dropped with no record, contradicting the claim as stated. -/
theorem fetch_exception_unrecorded_counterexample :
    envRaise.fetch "http://a.com/" = none ∧
    (crawl_website_single_site envRaise "http://a.com/" "/out" 1 2).processedLog =
      ["http://a.com/"] ∧
    (crawl_website_single_site envRaise "http://a.com/" "/out" 1 2).fetchLog =
      [("http://a.com/", 0)] ∧
    (crawl_website_single_site envRaise "http://a.com/" "/out" 1 2).failed = [] ∧
    (crawl_website_single_site envRaise "http://a.com/" "/out" 1 2).success = [] ∧
    (crawl_website_single_site envRaise "http://a.com/" "/out" 1 2).skipped_by_filter = [] :=
  ⟨rfl, by decide, by decide, by decide, by decide, by decide⟩

/-- The record the amended C4 prescribes for a processed URL `u`: filtered
URLs are in `skipped_by_filter`; a raising fetch leaves no record; a fetch
returning an unsuccessful status puts `(u, error_message)` in `failed`; a
successful fetch is routed by the save outcome — `success` on a clean
write, `failed` with the write error otherwise. -/
def AccountedAt (env : CrawlEnv) (sp : String) (st : CrawlState) (u : String) : Prop :=
  u ∈ st.skipped_by_filter ∨
  env.fetch u = none ∨
  ∃ r, env.fetch u = some r ∧
    ((r.success = false ∧ (u, r.error_message) ∈ st.failed) ∨
     (r.success = true ∧
       ((process_markdown_and_save env u r.raw_markdown
           (sp ++ "/" ++ sanitize_filename env.pyHash u) = SaveStatus.ok ∧
         u ∈ st.success) ∨
        (∃ e, process_markdown_and_save env u r.raw_markdown
           (sp ++ "/" ++ sanitize_filename env.pyHash u) = SaveStatus.err e ∧
         (u, e) ∈ st.failed))))

/-- C4 invariant (amended): every URL that passed the visited/domain checks
carries the record `AccountedAt` prescribes. -/
def InvAccounted (env : CrawlEnv) (sp : String) (st : CrawlState) : Prop :=
  ∀ u ∈ st.processedLog, AccountedAt env sp st u

/-- `AccountedAt` survives growth of the three result lists. -/
lemma accountedAt_mono (env : CrawlEnv) (sp : String) (st st2 : CrawlState) (u : String)
    (h : AccountedAt env sp st u)
    (hskip : ∀ v ∈ st.skipped_by_filter, v ∈ st2.skipped_by_filter)
    (hsucc : ∀ v ∈ st.success, v ∈ st2.success)
    (hfail : ∀ p ∈ st.failed, p ∈ st2.failed) :
    AccountedAt env sp st2 u := by
  rcases h with h | h | ⟨r, hf, h⟩
  · exact Or.inl (hskip u h)
  · exact Or.inr (Or.inl h)
  · refine Or.inr (Or.inr ⟨r, hf, ?_⟩)
    rcases h with ⟨hs, hmem⟩ | ⟨hs, h⟩
    · exact Or.inl ⟨hs, hfail _ hmem⟩
    · refine Or.inr ⟨hs, ?_⟩
      rcases h with ⟨hw, hmem⟩ | ⟨e, hw, hmem⟩
      · exact Or.inl ⟨hw, hsucc u hmem⟩
      · exact Or.inr ⟨e, hw, hfail _ hmem⟩

/-- Record membership is monotone under the step's list appends. -/
lemma invAccounted_mono (env : CrawlEnv) (sp : String) (st st2 : CrawlState)
    (h : InvAccounted env sp st)
    (hproc : st2.processedLog = st.processedLog ∨
      ∃ u0, st2.processedLog = st.processedLog ++ [u0] ∧ AccountedAt env sp st2 u0)
    (hskip : ∀ v ∈ st.skipped_by_filter, v ∈ st2.skipped_by_filter)
    (hsucc : ∀ v ∈ st.success, v ∈ st2.success)
    (hfail : ∀ p ∈ st.failed, p ∈ st2.failed) :
    InvAccounted env sp st2 := by
  intro v hv
  have hold : v ∈ st.processedLog → AccountedAt env sp st2 v :=
    fun hvold => accountedAt_mono env sp st st2 v (h v hvold) hskip hsucc hfail
  rcases hproc with hp | ⟨u0, hp, hu0⟩
  · exact hold (hp ▸ hv)
  · rw [hp] at hv
    rcases List.mem_append.1 hv with hv | hv
    · exact hold hv
    · rw [List.mem_singleton] at hv
      subst hv
      exact hu0

/-- One worker iteration preserves the amended accounting. -/
lemma invAccounted_step (env : CrawlEnv) (dm sp : String) (md : Nat) (st : CrawlState)
    (h : InvAccounted env sp st) : InvAccounted env sp (step env dm sp md st) := by
  have hmemappend : ∀ (l : List String) (u0 : String), u0 ∈ l ++ [u0] := by
    intro l u0
    exact List.mem_append.2 (Or.inr (List.mem_singleton.2 rfl))
  have hmemappendP : ∀ (l : List (String × String)) (p : String × String), p ∈ l ++ [p] := by
    intro l p
    exact List.mem_append.2 (Or.inr (List.mem_singleton.2 rfl))
  rcases step_cases env dm sp md st with ⟨hq, heq⟩ | ⟨u, d, rest, hq, hcase⟩
  · rw [heq]; exact h
  · rcases hcase with ⟨hc, heq⟩ | ⟨hc, hdom, heq⟩ | ⟨hc, hdom, hex, hsub⟩ |
      ⟨hc, hdom, hex, hsub⟩
    · rw [heq]; exact h
    · rw [heq]; exact h
    · have hfilteredBase : ∀ st2 : CrawlState,
          st2.processedLog = st.processedLog ++ [u] →
          st2.skipped_by_filter = st.skipped_by_filter ++ [u] →
          st2.success = st.success → st2.failed = st.failed → InvAccounted env sp st2 := by
        intro st2 hp hk hs2 hf2
        refine invAccounted_mono env sp st st2 h
          (Or.inr ⟨u, hp, Or.inl (by rw [hk]; exact hmemappend _ u)⟩) ?_ ?_ ?_
        · intro v hv; rw [hk]; exact List.mem_append.2 (Or.inl hv)
        · intro v hv; rw [hs2]; exact hv
        · intro p hp2; rw [hf2]; exact hp2
      rcases hsub with ⟨hd, heq⟩ | ⟨hd, hf, heq⟩ | ⟨hd, r, hf, hs, heq⟩
      · rw [heq]; exact hfilteredBase _ rfl rfl rfl rfl
      · rw [heq]; exact hfilteredBase _ rfl rfl rfl rfl
      · rw [heq]
        have hp := enqueueLinks_parts env dm d u r.links (stFilteredFetch st u d rest)
        exact hfilteredBase _ hp.2.2.2.2.1 hp.2.2.1 hp.1 hp.2.1
    · rcases hsub with ⟨hf, heq⟩ | ⟨r, hf, hs, heq⟩ | ⟨r, hf, hs, hw, hsub2⟩ |
        ⟨r, e2, hf, hs, hw, hsub2⟩
      · rw [heq]
        refine invAccounted_mono env sp st _ h
          (Or.inr ⟨u, rfl, Or.inr (Or.inl hf)⟩)
          (fun v hv => hv) (fun v hv => hv) (fun p hp2 => hp2)
      · rw [heq]
        refine invAccounted_mono env sp st _ h
          (Or.inr ⟨u, rfl, Or.inr (Or.inr ⟨r, hf, Or.inl ⟨hs,
            hmemappendP st.failed (u, r.error_message)⟩⟩)⟩)
          (fun v hv => hv) (fun v hv => hv) ?_
        intro p hp2
        exact List.mem_append.2 (Or.inl hp2)
      · have hsavedBase : ∀ st2 : CrawlState,
            st2.processedLog = st.processedLog ++ [u] →
            st2.skipped_by_filter = st.skipped_by_filter →
            st2.success = st.success ++ [u] → st2.failed = st.failed →
            InvAccounted env sp st2 := by
          intro st2 hp hk hs2 hf2
          refine invAccounted_mono env sp st st2 h
            (Or.inr ⟨u, hp, Or.inr (Or.inr ⟨r, hf, Or.inr ⟨hs, Or.inl ⟨hw,
              by rw [hs2]; exact hmemappend _ u⟩⟩⟩)⟩)
            ?_ ?_ ?_
          · intro v hv; rw [hk]; exact hv
          · intro v hv; rw [hs2]; exact List.mem_append.2 (Or.inl hv)
          · intro p hp2; rw [hf2]; exact hp2
        rcases hsub2 with ⟨hd, heq⟩ | ⟨hd, heq⟩
        · rw [heq]
          have hp := enqueueLinks_parts env dm d u r.links (stWriteOk st u d rest)
          exact hsavedBase _ hp.2.2.2.2.1 hp.2.2.1 hp.1 hp.2.1
        · rw [heq]; exact hsavedBase _ rfl rfl rfl rfl
      · have hfailedBase : ∀ st2 : CrawlState,
            st2.processedLog = st.processedLog ++ [u] →
            st2.skipped_by_filter = st.skipped_by_filter →
            st2.success = st.success → st2.failed = st.failed ++ [(u, e2)] →
            InvAccounted env sp st2 := by
          intro st2 hp hk hs2 hf2
          refine invAccounted_mono env sp st st2 h
            (Or.inr ⟨u, hp, Or.inr (Or.inr ⟨r, hf, Or.inr ⟨hs, Or.inr ⟨e2, hw,
              by rw [hf2]; exact hmemappendP st.failed (u, e2)⟩⟩⟩)⟩)
            ?_ ?_ ?_
          · intro v hv; rw [hk]; exact hv
          · intro v hv; rw [hs2]; exact hv
          · intro p hp2; rw [hf2]; exact List.mem_append.2 (Or.inl hp2)
        rcases hsub2 with ⟨hd, heq⟩ | ⟨hd, heq⟩
        · rw [heq]
          have hp := enqueueLinks_parts env dm d u r.links (stWriteErr st u d rest e2)
          exact hfailedBase _ hp.2.2.2.2.1 hp.2.2.1 hp.1 hp.2.1
        · rw [heq]; exact hfailedBase _ rfl rfl rfl rfl

/-- C4 (amended).  Every dequeued in-domain, not-yet-visited URL is routed
to its prescribed record: a URL whose sanitized name is filtered lands in
`skipped_by_filter`; a fetch that raises leaves no record (the worker's
catch-all handler swallows it); a fetch returning an unsuccessful status
puts the URL with its `error_message` in `failed`; a successful fetch puts
the URL in `success` when the file write succeeds and in `failed` with the
write's error message when it fails. -/
theorem no_outcome_dropped_unless_fetch_raises (env : CrawlEnv)
    (start_url output_dir : String) (max_depth fuel : Nat) (u : String)
    (hu : u ∈ (crawl_website_single_site env start_url output_dir max_depth fuel).processedLog) :
    u ∈ (crawl_website_single_site env start_url output_dir max_depth fuel).skipped_by_filter ∨
    env.fetch u = none ∨
    ∃ r, env.fetch u = some r ∧
      ((r.success = false ∧
        (u, r.error_message) ∈
          (crawl_website_single_site env start_url output_dir max_depth fuel).failed) ∨
       (r.success = true ∧
         ((process_markdown_and_save env u r.raw_markdown
             (output_dir ++ "/" ++ sanitize_dirname env.pyHash start_url ++ "/" ++
               sanitize_filename env.pyHash u) = SaveStatus.ok ∧
           u ∈ (crawl_website_single_site env start_url output_dir max_depth fuel).success) ∨
          (∃ e, process_markdown_and_save env u r.raw_markdown
             (output_dir ++ "/" ++ sanitize_dirname env.pyHash start_url ++ "/" ++
               sanitize_filename env.pyHash u) = SaveStatus.err e ∧
           (u, e) ∈
             (crawl_website_single_site env start_url output_dir max_depth fuel).failed)))) := by
  revert hu
  unfold crawl_website_single_site
  by_cases h0 : (urlparse start_url).netloc = ""
  · rw [if_pos h0]
    intro hu
    simp [initState] at hu
  · rw [if_neg h0]
    dsimp only
    cases hm : env.mkdir (output_dir ++ "/" ++ sanitize_dirname env.pyHash start_url) with
    | some e =>
      intro hu
      simp [initState] at hu
    | none =>
      intro hu
      refine run_preserve env (urlparse start_url).netloc
        (output_dir ++ "/" ++ sanitize_dirname env.pyHash start_url) max_depth
        (InvAccounted env (output_dir ++ "/" ++ sanitize_dirname env.pyHash start_url))
        (fun st hst => invAccounted_step env (urlparse start_url).netloc
          (output_dir ++ "/" ++ sanitize_dirname env.pyHash start_url) max_depth st hst)
        fuel (initState start_url) ?_ u hu
      intro v hv
      simp [initState] at hv

/-- Witness environment for the amended C4: every fetch returns an
unsuccessful status with message `boom`. -/
def envFail : CrawlEnv where
  fetch := fun _ =>
    some { success := false, links := [], error_message := "boom", raw_markdown := "" }
  join := fun _ href => some href
  write := fun _ _ => none
  mkdir := fun _ => none
  pyHash := fun _ => 0

theorem no_outcome_dropped_witness :
    "http://a.com/" ∈
      (crawl_website_single_site envFail "http://a.com/" "/out" 0 2).processedLog ∧
    (crawl_website_single_site envFail "http://a.com/" "/out" 0 2).failed =
      [("http://a.com/", "boom")] ∧
    ("http://a.com/" ∈
      (crawl_website_single_site envFail "http://a.com/" "/out" 0 2).skipped_by_filter ∨
     envFail.fetch "http://a.com/" = none ∨
     ∃ r, envFail.fetch "http://a.com/" = some r ∧
       ((r.success = false ∧
         ("http://a.com/", r.error_message) ∈
           (crawl_website_single_site envFail "http://a.com/" "/out" 0 2).failed) ∨
        (r.success = true ∧
          ((process_markdown_and_save envFail "http://a.com/" r.raw_markdown
              ("/out" ++ "/" ++ sanitize_dirname envFail.pyHash "http://a.com/" ++ "/" ++
                sanitize_filename envFail.pyHash "http://a.com/") = SaveStatus.ok ∧
            "http://a.com/" ∈
              (crawl_website_single_site envFail "http://a.com/" "/out" 0 2).success) ∨
           (∃ e, process_markdown_and_save envFail "http://a.com/" r.raw_markdown
              ("/out" ++ "/" ++ sanitize_dirname envFail.pyHash "http://a.com/" ++ "/" ++
                sanitize_filename envFail.pyHash "http://a.com/") = SaveStatus.err e ∧
            ("http://a.com/", e) ∈
              (crawl_website_single_site envFail "http://a.com/" "/out" 0 2).failed))))) := by
  have hpl : (crawl_website_single_site envFail "http://a.com/" "/out" 0 2).processedLog =
      ["http://a.com/"] := by decide
  have hmem : "http://a.com/" ∈
      (crawl_website_single_site envFail "http://a.com/" "/out" 0 2).processedLog := by
    rw [hpl]; exact List.mem_singleton.2 rfl
  exact ⟨hmem, by decide, no_outcome_dropped_unless_fetch_raises envFail "http://a.com/" "/out"
    0 2 "http://a.com/" hmem⟩

/-! ## C5: exclusion precedence -/

/-- Queue membership is preserved by `enqueueOne` (it only appends). -/
lemma enqueueOne_queue_preserve (e : CrawlEnv) (dm : String) (d : Nat)
    (cur href : String) (st : CrawlState) (p : String × Nat) (hp : p ∈ st.queue) :
    p ∈ (enqueueOne e dm d cur st href).queue := by
  cases hj : e.join cur href with
  | none => simp only [enqueueOne, hj]; exact hp
  | some a =>
    simp only [enqueueOne, hj]
    split
    · split
      · exact List.mem_append.2 (Or.inl hp)
      · exact hp
    · exact hp

/-- Queued-set membership is preserved by `enqueueOne`. -/
lemma enqueueOne_queued_preserve (e : CrawlEnv) (dm : String) (d : Nat)
    (cur href : String) (st : CrawlState) (a : String) (ha : a ∈ st.queued_urls) :
    a ∈ (enqueueOne e dm d cur st href).queued_urls := by
  cases hj : e.join cur href with
  | none => simp only [enqueueOne, hj]; exact ha
  | some b =>
    simp only [enqueueOne, hj]
    split
    · split
      · exact List.mem_cons.2 (Or.inr ha)
      · exact ha
    · exact ha

/-- A URL newly present in the queued set after `enqueueOne` was enqueued at
depth `d + 1`. -/
lemma enqueueOne_queued_new (e : CrawlEnv) (dm : String) (d : Nat)
    (cur href : String) (st : CrawlState) (a : String)
    (ha : a ∈ (enqueueOne e dm d cur st href).queued_urls) :
    a ∈ st.queued_urls ∨ (a, d + 1) ∈ (enqueueOne e dm d cur st href).queue := by
  cases hj : e.join cur href with
  | none => simp only [enqueueOne, hj] at ha ⊢; exact Or.inl ha
  | some b =>
    simp only [enqueueOne, hj] at ha ⊢
    split at ha
    · rename_i hdom
      split at ha
      · rename_i hfresh
        rcases List.mem_cons.1 ha with hab | ha2
        · subst hab
          refine Or.inr ?_
          rw [if_pos hdom, if_pos hfresh]
          exact List.mem_append.2 (Or.inr (List.mem_singleton.2 rfl))
        · exact Or.inl ha2
      · exact Or.inl ha
    · exact Or.inl ha

/-- Queue membership is preserved by `enqueueLinks`. -/
lemma enqueueLinks_queue_preserve (e : CrawlEnv) (dm : String) (d : Nat) (cur : String) :
    ∀ (links : List String) (st : CrawlState) (p : String × Nat), p ∈ st.queue →
      p ∈ (enqueueLinks e dm d cur links st).queue := by
  intro links
  induction links with
  | nil => intro st p hp; exact hp
  | cons h0 t ih =>
    intro st p hp
    simp only [enqueueLinks, List.foldl_cons] at ih ⊢
    exact ih _ p (enqueueOne_queue_preserve e dm d cur h0 st p hp)

/-- Queued-set membership is preserved by `enqueueLinks`. -/
lemma enqueueLinks_queued_preserve (e : CrawlEnv) (dm : String) (d : Nat) (cur : String) :
    ∀ (links : List String) (st : CrawlState) (a : String), a ∈ st.queued_urls →
      a ∈ (enqueueLinks e dm d cur links st).queued_urls := by
  intro links
  induction links with
  | nil => intro st a ha; exact ha
  | cons h0 t ih =>
    intro st a ha
    simp only [enqueueLinks, List.foldl_cons] at ih ⊢
    exact ih _ a (enqueueOne_queued_preserve e dm d cur h0 st a ha)

/-- A discovered in-domain link not in either membership set is enqueued at
depth `d + 1` by the per-link loop. -/
lemma enqueueLinks_fresh (e : CrawlEnv) (dm : String) (d : Nat) (cur : String) :
    ∀ (links : List String) (st : CrawlState) (href a : String), href ∈ links →
      e.join cur href = some a → (urlparse a).netloc = dm →
      a ∉ st.crawled_urls → a ∉ st.queued_urls →
      a ∈ (enqueueLinks e dm d cur links st).queued_urls ∧
        (a, d + 1) ∈ (enqueueLinks e dm d cur links st).queue := by
  intro links
  induction links with
  | nil => intro st href a hmem; exact absurd hmem (List.not_mem_nil href)
  | cons h0 t ih =>
    intro st href a hmem hj hdom hcr hqd
    simp only [enqueueLinks, List.foldl_cons]
    rcases List.mem_cons.1 hmem with hh | ht
    · subst hh
      have h1 : a ∈ (enqueueOne e dm d cur st href).queued_urls ∧
          (a, d + 1) ∈ (enqueueOne e dm d cur st href).queue := by
        simp only [enqueueOne, hj]
        rw [if_pos hdom, if_pos ⟨hcr, hqd⟩]
        exact ⟨List.mem_cons.2 (Or.inl rfl),
          List.mem_append.2 (Or.inr (List.mem_singleton.2 rfl))⟩
      exact ⟨enqueueLinks_queued_preserve e dm d cur t _ a h1.1,
        enqueueLinks_queue_preserve e dm d cur t _ (a, d + 1) h1.2⟩
    · by_cases hnew : a ∈ (enqueueOne e dm d cur st h0).queued_urls
      · rcases enqueueOne_queued_new e dm d cur h0 st a hnew with hold | hq
        · exact absurd hold hqd
        · exact ⟨enqueueLinks_queued_preserve e dm d cur t _ a hnew,
            enqueueLinks_queue_preserve e dm d cur t _ (a, d + 1) hq⟩
      · have hcr2 : a ∉ (enqueueOne e dm d cur st h0).crawled_urls := by
          rw [(enqueueOne_parts e dm d cur h0 st).2.2.2.1]
          exact hcr
        exact ih _ href a ht hj hdom hcr2 hnew

/-- C5 invariant for the no-artifact part: every URL in `success` or in the
write-attempt log has a non-excluded sanitized name. -/
def InvNoWrite (env : CrawlEnv) (st : CrawlState) : Prop :=
  (∀ u ∈ st.success, hasExcludeKeyword (sanitize_filename env.pyHash u) = false) ∧
  (∀ u ∈ st.writeAttempts, hasExcludeKeyword (sanitize_filename env.pyHash u) = false)

/-- C5 invariant for the skipped-record part: every processed URL with an
excluded name is recorded in `skipped_by_filter`. -/
def InvSkipRecorded (env : CrawlEnv) (st : CrawlState) : Prop :=
  ∀ u ∈ st.processedLog,
    hasExcludeKeyword (sanitize_filename env.pyHash u) = true → u ∈ st.skipped_by_filter

/-- One worker iteration preserves `InvNoWrite`: the write path runs only in
the branch whose exclusion test came out false. -/
lemma invNoWrite_step (env : CrawlEnv) (dm sp : String) (md : Nat) (st : CrawlState)
    (h : InvNoWrite env st) : InvNoWrite env (step env dm sp md st) := by
  rcases step_cases env dm sp md st with ⟨hq, heq⟩ | ⟨u, d, rest, hq, hcase⟩
  · rw [heq]; exact h
  · have hsame : ∀ st2 : CrawlState, st2.success = st.success →
        st2.writeAttempts = st.writeAttempts → InvNoWrite env st2 := by
      intro st2 h1 h2
      exact ⟨fun v hv => h.1 v (h1 ▸ hv), fun v hv => h.2 v (h2 ▸ hv)⟩
    have hext : ∀ st2 : CrawlState,
        hasExcludeKeyword (sanitize_filename env.pyHash u) = false →
        st2.success = st.success ++ [u] → st2.writeAttempts = st.writeAttempts ++ [u] →
        InvNoWrite env st2 := by
      intro st2 hex h1 h2
      constructor
      · intro v hv
        rw [h1] at hv
        rcases List.mem_append.1 hv with hv | hv
        · exact h.1 v hv
        · rw [List.mem_singleton] at hv; subst hv; exact hex
      · intro v hv
        rw [h2] at hv
        rcases List.mem_append.1 hv with hv | hv
        · exact h.2 v hv
        · rw [List.mem_singleton] at hv; subst hv; exact hex
    have hextErr : ∀ st2 : CrawlState,
        hasExcludeKeyword (sanitize_filename env.pyHash u) = false →
        st2.success = st.success → st2.writeAttempts = st.writeAttempts ++ [u] →
        InvNoWrite env st2 := by
      intro st2 hex h1 h2
      constructor
      · intro v hv
        exact h.1 v (h1 ▸ hv)
      · intro v hv
        rw [h2] at hv
        rcases List.mem_append.1 hv with hv | hv
        · exact h.2 v hv
        · rw [List.mem_singleton] at hv; subst hv; exact hex
    rcases hcase with ⟨hc, heq⟩ | ⟨hc, hdom, heq⟩ | ⟨hc, hdom, hex, hsub⟩ |
      ⟨hc, hdom, hex, hsub⟩
    · rw [heq]; exact hsame _ rfl rfl
    · rw [heq]; exact hsame _ rfl rfl
    · rcases hsub with ⟨hd, heq⟩ | ⟨hd, hf, heq⟩ | ⟨hd, r, hf, hs, heq⟩
      · rw [heq]; exact hsame _ rfl rfl
      · rw [heq]; exact hsame _ rfl rfl
      · rw [heq]
        have hp := enqueueLinks_parts env dm d u r.links (stFilteredFetch st u d rest)
        exact hsame _ hp.1 hp.2.2.2.2.2.2
    · rcases hsub with ⟨hf, heq⟩ | ⟨r, hf, hs, heq⟩ | ⟨r, hf, hs, hw, hsub2⟩ |
        ⟨r, e2, hf, hs, hw, hsub2⟩
      · rw [heq]; exact hsame _ rfl rfl
      · rw [heq]; exact hsame _ rfl rfl
      · rcases hsub2 with ⟨hd, heq⟩ | ⟨hd, heq⟩
        · rw [heq]
          have hp := enqueueLinks_parts env dm d u r.links (stWriteOk st u d rest)
          exact hext _ hex hp.1 hp.2.2.2.2.2.2
        · rw [heq]; exact hext _ hex rfl rfl
      · rcases hsub2 with ⟨hd, heq⟩ | ⟨hd, heq⟩
        · rw [heq]
          have hp := enqueueLinks_parts env dm d u r.links (stWriteErr st u d rest e2)
          exact hextErr _ hex hp.1 hp.2.2.2.2.2.2
        · rw [heq]; exact hextErr _ hex rfl rfl

/-- One worker iteration preserves `InvSkipRecorded`. -/
lemma invSkipRecorded_step (env : CrawlEnv) (dm sp : String) (md : Nat) (st : CrawlState)
    (h : InvSkipRecorded env st) : InvSkipRecorded env (step env dm sp md st) := by
  rcases step_cases env dm sp md st with ⟨hq, heq⟩ | ⟨u, d, rest, hq, hcase⟩
  · rw [heq]; exact h
  · have hsame : ∀ st2 : CrawlState, st2.processedLog = st.processedLog →
        st2.skipped_by_filter = st.skipped_by_filter → InvSkipRecorded env st2 := by
      intro st2 h1 h2 v hv hvex
      rw [h2]
      exact h v (h1 ▸ hv) hvex
    have hfiltered : ∀ st2 : CrawlState,
        st2.processedLog = st.processedLog ++ [u] →
        st2.skipped_by_filter = st.skipped_by_filter ++ [u] → InvSkipRecorded env st2 := by
      intro st2 h1 h2 v hv hvex
      rw [h2]
      rw [h1] at hv
      rcases List.mem_append.1 hv with hv | hv
      · exact List.mem_append.2 (Or.inl (h v hv hvex))
      · rw [List.mem_singleton] at hv; subst hv
        exact List.mem_append.2 (Or.inr (List.mem_singleton.2 rfl))
    have hnonfiltered : ∀ st2 : CrawlState,
        hasExcludeKeyword (sanitize_filename env.pyHash u) = false →
        st2.processedLog = st.processedLog ++ [u] →
        st2.skipped_by_filter = st.skipped_by_filter → InvSkipRecorded env st2 := by
      intro st2 hex h1 h2 v hv hvex
      rw [h2]
      rw [h1] at hv
      rcases List.mem_append.1 hv with hv | hv
      · exact h v hv hvex
      · rw [List.mem_singleton] at hv; subst hv
        rw [hex] at hvex
        exact absurd hvex (by simp)
    rcases hcase with ⟨hc, heq⟩ | ⟨hc, hdom, heq⟩ | ⟨hc, hdom, hex, hsub⟩ |
      ⟨hc, hdom, hex, hsub⟩
    · rw [heq]; exact hsame _ rfl rfl
    · rw [heq]; exact hsame _ rfl rfl
    · rcases hsub with ⟨hd, heq⟩ | ⟨hd, hf, heq⟩ | ⟨hd, r, hf, hs, heq⟩
      · rw [heq]; exact hfiltered _ rfl rfl
      · rw [heq]; exact hfiltered _ rfl rfl
      · rw [heq]
        have hp := enqueueLinks_parts env dm d u r.links (stFilteredFetch st u d rest)
        exact hfiltered _ hp.2.2.2.2.1 hp.2.2.1
    · rcases hsub with ⟨hf, heq⟩ | ⟨r, hf, hs, heq⟩ | ⟨r, hf, hs, hw, hsub2⟩ |
        ⟨r, e2, hf, hs, hw, hsub2⟩
      · rw [heq]; exact hnonfiltered _ hex rfl rfl
      · rw [heq]; exact hnonfiltered _ hex rfl rfl
      · rcases hsub2 with ⟨hd, heq⟩ | ⟨hd, heq⟩
        · rw [heq]
          have hp := enqueueLinks_parts env dm d u r.links (stWriteOk st u d rest)
          exact hnonfiltered _ hex hp.2.2.2.2.1 hp.2.2.1
        · rw [heq]; exact hnonfiltered _ hex rfl rfl
      · rcases hsub2 with ⟨hd, heq⟩ | ⟨hd, heq⟩
        · rw [heq]
          have hp := enqueueLinks_parts env dm d u r.links (stWriteErr st u d rest e2)
          exact hnonfiltered _ hex hp.2.2.2.2.1 hp.2.2.1
        · rw [heq]; exact hnonfiltered _ hex rfl rfl

set_option maxHeartbeats 1000000 in
/-- C5.  A URL whose sanitized file name matches an exclusion keyword never
has a content artifact written (no write is even attempted, so it is never
in `success`), is recorded in `skipped_by_filter` whenever it is processed,
and — when its depth is strictly below `max_depth` and its fetch succeeds —
its discovered in-domain links not yet seen are still enqueued at depth
`d + 1`. -/
theorem exclusion_precedence :
    (∀ (env : CrawlEnv) (start_url output_dir : String) (max_depth fuel : Nat)
      (u : String), hasExcludeKeyword (sanitize_filename env.pyHash u) = true →
      u ∉ (crawl_website_single_site env start_url output_dir max_depth fuel).writeAttempts ∧
      u ∉ (crawl_website_single_site env start_url output_dir max_depth fuel).success) ∧
    (∀ (env : CrawlEnv) (start_url output_dir : String) (max_depth fuel : Nat)
      (u : String),
      u ∈ (crawl_website_single_site env start_url output_dir max_depth fuel).processedLog →
      hasExcludeKeyword (sanitize_filename env.pyHash u) = true →
      u ∈ (crawl_website_single_site env start_url output_dir max_depth
        fuel).skipped_by_filter) ∧
    (∀ (env : CrawlEnv) (dm sp : String) (md : Nat) (st : CrawlState) (u : String)
      (d : Nat) (rest : List (String × Nat)) (r : FetchResult) (href a : String),
      st.queue = (u, d) :: rest → u ∉ st.crawled_urls → (urlparse u).netloc = dm →
      hasExcludeKeyword (sanitize_filename env.pyHash u) = true → d < md →
      env.fetch u = some r → r.success = true → href ∈ r.links →
      env.join u href = some a → (urlparse a).netloc = dm →
      a ∉ st.crawled_urls → a ≠ u → a ∉ st.queued_urls →
      a ∈ (step env dm sp md st).queued_urls ∧
        (a, d + 1) ∈ (step env dm sp md st).queue) := by
  refine ⟨?_, ?_, ?_⟩
  · intro env start_url output_dir max_depth fuel u hex
    have hinv : InvNoWrite env
        (crawl_website_single_site env start_url output_dir max_depth fuel) := by
      unfold crawl_website_single_site
      by_cases h0 : (urlparse start_url).netloc = ""
      · rw [if_pos h0]
        exact ⟨fun v hv => by simp [initState] at hv, fun v hv => by simp [initState] at hv⟩
      · rw [if_neg h0]
        dsimp only
        cases hm : env.mkdir (output_dir ++ "/" ++ sanitize_dirname env.pyHash start_url) with
        | some e =>
          exact ⟨fun v hv => by simp [initState] at hv,
            fun v hv => by simp [initState] at hv⟩
        | none =>
          refine run_preserve env (urlparse start_url).netloc
            (output_dir ++ "/" ++ sanitize_dirname env.pyHash start_url) max_depth
            (InvNoWrite env)
            (fun st hst => invNoWrite_step env (urlparse start_url).netloc
              (output_dir ++ "/" ++ sanitize_dirname env.pyHash start_url) max_depth st hst)
            fuel (initState start_url)
            ⟨fun v hv => by simp [initState] at hv, fun v hv => by simp [initState] at hv⟩
    constructor
    · intro hmem
      have := hinv.2 u hmem
      rw [hex] at this
      exact absurd this (by simp)
    · intro hmem
      have := hinv.1 u hmem
      rw [hex] at this
      exact absurd this (by simp)
  · intro env start_url output_dir max_depth fuel u hmem hex
    revert hmem
    unfold crawl_website_single_site
    by_cases h0 : (urlparse start_url).netloc = ""
    · rw [if_pos h0]
      intro hmem
      simp [initState] at hmem
    · rw [if_neg h0]
      dsimp only
      cases hm : env.mkdir (output_dir ++ "/" ++ sanitize_dirname env.pyHash start_url) with
      | some e =>
        intro hmem
        simp [initState] at hmem
      | none =>
        intro hmem
        refine run_preserve env (urlparse start_url).netloc
          (output_dir ++ "/" ++ sanitize_dirname env.pyHash start_url) max_depth
          (InvSkipRecorded env)
          (fun st hst => invSkipRecorded_step env (urlparse start_url).netloc
            (output_dir ++ "/" ++ sanitize_dirname env.pyHash start_url) max_depth st hst)
          fuel (initState start_url) ?_ u hmem hex
        intro v hv
        simp [initState] at hv
  · intro env dm sp md st u d rest r href a hq hc hdom hex hd hf hs hlink hj hadom hacr
      hane haqd
    have heq : step env dm sp md st =
        enqueueLinks env dm d u r.links (stFilteredFetch st u d rest) := by
      rcases step_cases env dm sp md st with ⟨hq2, _⟩ | ⟨u2, d2, rest2, hq2, hcase⟩
      · rw [hq] at hq2; exact absurd hq2 (by simp)
      · rw [hq] at hq2
        injection hq2 with hp hr
        injection hp with hu2 hd2
        subst hu2; subst hd2; subst hr
        rcases hcase with ⟨hc2, _⟩ | ⟨_, hdom2, _⟩ | ⟨_, _, _, hsub⟩ | ⟨_, _, hex2, _⟩
        · exact absurd hc2 hc
        · exact absurd hdom hdom2
        · rcases hsub with ⟨hd2, _⟩ | ⟨_, hf2, heq2⟩ | ⟨_, r2, hf2, hs2, heq2⟩
          · exact absurd hd hd2
          · rcases hf2 with hf2 | ⟨r2, hf2, hs2⟩
            · rw [hf] at hf2; exact absurd hf2 (by simp)
            · rw [hf] at hf2
              injection hf2 with hr2
              subst hr2
              rw [hs] at hs2
              exact absurd hs2 (by simp)
          · rw [hf] at hf2
            injection hf2 with hr2
            subst hr2
            exact heq2
        · rw [hex] at hex2; exact absurd hex2 (by simp)
    rw [heq]
    refine enqueueLinks_fresh env dm d u r.links (stFilteredFetch st u d rest) href a
      hlink hj hadom ?_ haqd
    intro hmem
    rcases List.mem_cons.1 hmem with hmem | hmem
    · exact hane hmem
    · exact hacr hmem

/-- Witness for C5 at a concrete filtered page: `f.pdf` is filtered, never
written, recorded in `skipped_by_filter`, and its fresh in-domain link is
enqueued at depth 1. -/
def envPdf : CrawlEnv where
  fetch := fun _ =>
    some { success := true, links := ["http://a.com/x"], error_message := "",
           raw_markdown := "" }
  join := fun _ href => some href
  write := fun _ _ => none
  mkdir := fun _ => none
  pyHash := fun _ => 0

theorem exclusion_precedence_witness :
    hasExcludeKeyword (sanitize_filename envPdf.pyHash "http://a.com/f.pdf") = true ∧
    "http://a.com/f.pdf" ∉
      (crawl_website_single_site envPdf "http://a.com/f.pdf" "/out" 1 3).writeAttempts ∧
    "http://a.com/f.pdf" ∉
      (crawl_website_single_site envPdf "http://a.com/f.pdf" "/out" 1 3).success ∧
    "http://a.com/f.pdf" ∈
      (crawl_website_single_site envPdf "http://a.com/f.pdf" "/out" 1 3).processedLog ∧
    "http://a.com/f.pdf" ∈
      (crawl_website_single_site envPdf "http://a.com/f.pdf" "/out" 1 3).skipped_by_filter ∧
    ("http://a.com/x" ∈
      (step envPdf "a.com" "/out/a_com" 1 (initState "http://a.com/f.pdf")).queued_urls ∧
      ("http://a.com/x", 1) ∈
        (step envPdf "a.com" "/out/a_com" 1 (initState "http://a.com/f.pdf")).queue) := by
  have hex : hasExcludeKeyword (sanitize_filename envPdf.pyHash "http://a.com/f.pdf") =
      true := by decide
  have hpl : (crawl_website_single_site envPdf "http://a.com/f.pdf" "/out" 1 3).processedLog =
      ["http://a.com/f.pdf", "http://a.com/x"] := by decide
  have hmem : "http://a.com/f.pdf" ∈
      (crawl_website_single_site envPdf "http://a.com/f.pdf" "/out" 1 3).processedLog := by
    rw [hpl]; exact List.mem_cons.2 (Or.inl rfl)
  have h1 := (exclusion_precedence.1 envPdf "http://a.com/f.pdf" "/out" 1 3
    "http://a.com/f.pdf" hex)
  have h2 := exclusion_precedence.2.1 envPdf "http://a.com/f.pdf" "/out" 1 3
    "http://a.com/f.pdf" hmem hex
  have h3 := exclusion_precedence.2.2 envPdf "a.com" "/out/a_com" 1
    (initState "http://a.com/f.pdf") "http://a.com/f.pdf" 0 [] _ "http://a.com/x"
    "http://a.com/x" rfl (by decide) (by decide) hex (by decide) rfl rfl
    (List.mem_singleton.2 rfl) rfl (by decide) (by decide) (by decide) (by decide)
  exact ⟨hex, h1.1, h1.2, hmem, h2, h3⟩

/-! ## C8 and C10: the batch loop and CSV duplicates -/

/-- Looking up the key just inserted yields the inserted value. -/
lemma dictLookup_insert_self (d : List (String × SiteEntry)) (k : String) (v : SiteEntry) :
    dictLookup (dictInsert d k v) k = some v := by
  induction d with
  | nil => simp [dictInsert, dictLookup]
  | cons p rest ih =>
    obtain ⟨k0, v0⟩ := p
    by_cases hk : k0 = k
    · simp [dictInsert, dictLookup, hk]
    · simp only [dictInsert, if_neg hk, dictLookup]
      exact ih

/-- Inserting a different key does not change a lookup. -/
lemma dictLookup_insert_other (d : List (String × SiteEntry)) (k0 k : String)
    (v : SiteEntry) (hk : k0 ≠ k) :
    dictLookup (dictInsert d k0 v) k = dictLookup d k := by
  induction d with
  | nil => simp [dictInsert, dictLookup, hk]
  | cons p rest ih =>
    obtain ⟨k1, v1⟩ := p
    by_cases hk1 : k1 = k0
    · subst hk1
      simp only [dictInsert, if_pos rfl, dictLookup]
      rw [if_neg hk, if_neg hk]
    · simp only [dictInsert, if_neg hk1, dictLookup]
      by_cases hk2 : k1 = k
      · rw [if_pos hk2, if_pos hk2]
      · rw [if_neg hk2, if_neg hk2]
        exact ih

/-- A defined lookup stays defined through the rest of the batch loop. -/
lemma batch_loop_keeps_defined (oracle : Nat → String → Except String CrawlState) :
    ∀ (urls : List String) (i : Nat) (acc : BatchAcc) (k : String) (v : SiteEntry),
      dictLookup acc.dict k = some v →
      ∃ w, dictLookup (batch_loop oracle urls i acc).dict k = some w := by
  intro urls
  induction urls with
  | nil => intro i acc k v hv; exact ⟨v, hv⟩
  | cons u rest ih =>
    intro i acc k v hv
    simp only [batch_loop]
    by_cases hk : u = k
    · subst hk
      exact ih (i + 1) _ u (entryFor (oracle i u)) (dictLookup_insert_self acc.dict u _)
    · refine ih (i + 1) _ k v ?_
      rw [dictLookup_insert_other acc.dict u k _ hk]
      exact hv

/-- The batch loop leaves the lookup of a key absent from the remaining URLs
unchanged. -/
lemma batch_loop_untouched (oracle : Nat → String → Except String CrawlState) :
    ∀ (urls : List String) (i : Nat) (acc : BatchAcc) (k : String), k ∉ urls →
      dictLookup (batch_loop oracle urls i acc).dict k = dictLookup acc.dict k := by
  intro urls
  induction urls with
  | nil => intro i acc k _; rfl
  | cons u rest ih =>
    intro i acc k hk
    simp only [batch_loop]
    rw [ih (i + 1) _ k (fun hmem => hk (List.mem_cons.2 (Or.inr hmem)))]
    exact dictLookup_insert_other acc.dict u k _ (fun he => hk (he ▸ List.mem_cons.2 (Or.inl rfl)))

/-- The batch loop distributes over list concatenation, advancing the loop
index by the length of the first part. -/
lemma batch_loop_append (oracle : Nat → String → Except String CrawlState) :
    ∀ (xs ys : List String) (i : Nat) (acc : BatchAcc),
      batch_loop oracle (xs ++ ys) i acc =
        batch_loop oracle ys (i + xs.length) (batch_loop oracle xs i acc) := by
  intro xs
  induction xs with
  | nil => intro ys i acc; simp [batch_loop]
  | cons x rest ih =>
    intro ys i acc
    simp only [List.cons_append, batch_loop, List.length_cons, List.append_eq]
    rw [ih ys (i + 1) _]
    congr 1
    omega

/-- The batch loop records one crawl invocation per URL, in order. -/
lemma batch_loop_calls (oracle : Nat → String → Except String CrawlState) :
    ∀ (urls : List String) (i : Nat) (acc : BatchAcc),
      (batch_loop oracle urls i acc).calls = acc.calls ++ urls := by
  intro urls
  induction urls with
  | nil => intro i acc; simp [batch_loop]
  | cons u rest ih =>
    intro i acc
    simp only [batch_loop]
    rw [ih (i + 1) _]
    simp

/-- C8.  The batch orchestrator never sees an exception: for every start URL
of the list, the `site_crawl_results` mapping ends up with an entry for that
URL — the crawl result on normal return, or the error entry built by the
per-site `except` arm — and the loop always continues past a failing
site. -/
theorem batch_always_has_entry (oracle : Nat → String → Except String CrawlState)
    (urls : List String) (u : String) (hu : u ∈ urls) :
    ∃ e, dictLookup (crawl_csv_batch oracle urls).dict u = some e := by
  unfold crawl_csv_batch
  suffices h : ∀ (rest : List String) (i : Nat) (acc : BatchAcc), u ∈ rest →
      ∃ e, dictLookup (batch_loop oracle rest i acc).dict u = some e by
    exact h urls 0 { dict := [], calls := [] } hu
  intro rest
  induction rest with
  | nil => intro i acc hmem; exact absurd hmem (List.not_mem_nil u)
  | cons v t ih =>
    intro i acc hmem
    simp only [batch_loop]
    rcases List.mem_cons.1 hmem with hv | ht
    · subst hv
      exact batch_loop_keeps_defined oracle t (i + 1) _ u _
        (dictLookup_insert_self acc.dict u _)
    · exact ih (i + 1) _ ht

/-- Witness for C8: a crawl that raises on the first site still yields an
entry for it, and the second site gets one too. -/
def oracleBoom : Nat → String → Except String CrawlState := fun i u =>
  if i = 0 then Except.error "boom" else Except.ok (initState u)

theorem batch_always_has_entry_witness :
    "http://a.com" ∈ ["http://a.com", "http://b.com"] ∧
    (∃ e, dictLookup
      (crawl_csv_batch oracleBoom ["http://a.com", "http://b.com"]).dict
      "http://a.com" = some e) ∧
    "http://b.com" ∈ ["http://a.com", "http://b.com"] ∧
    (∃ e, dictLookup
      (crawl_csv_batch oracleBoom ["http://a.com", "http://b.com"]).dict
      "http://b.com" = some e) := by
  have h1 : "http://a.com" ∈ ["http://a.com", "http://b.com"] :=
    List.mem_cons.2 (Or.inl rfl)
  have h2 : "http://b.com" ∈ ["http://a.com", "http://b.com"] :=
    List.mem_cons.2 (Or.inr (List.mem_singleton.2 rfl))
  exact ⟨h1, batch_always_has_entry oracleBoom _ _ h1,
    h2, batch_always_has_entry oracleBoom _ _ h2⟩

/-- C10.  A valid URL appearing on several CSV lines is returned once per
occurrence by the reader (no deduplication), the batch loop crawls once per
occurrence in order, and — the results dict being keyed by URL — the entry
retained for it is the one of its last occurrence. -/
theorem csv_duplicates_last_retained :
    (∀ rows : List (List String),
      read_urls_from_rows rows =
        (rows.filterMap fun row => row.head?.map pyStrip).filter
          (fun s => validUrl s)) ∧
    (∀ (oracle : Nat → String → Except String CrawlState) (urls : List String),
      (crawl_csv_batch oracle urls).calls = urls) ∧
    (∀ (oracle : Nat → String → Except String CrawlState) (pre post : List String)
      (u : String), u ∉ post →
      dictLookup (crawl_csv_batch oracle (pre ++ u :: post)).dict u =
        some (entryFor (oracle pre.length u))) := by
  refine ⟨?_, ?_, ?_⟩
  · intro rows
    induction rows with
    | nil => rfl
    | cons row rest ih =>
      cases row with
      | nil =>
        rw [read_urls_from_rows]
        simp only [List.filterMap_cons, List.head?, Option.map_none]
        exact ih
      | cons f t =>
        rw [read_urls_from_rows]
        have hr : ((f :: t) :: rest).filterMap (fun row => Option.map pyStrip row.head?) =
            pyStrip f :: rest.filterMap (fun row => Option.map pyStrip row.head?) := rfl
        rw [hr, List.filter_cons]
        by_cases hv : validUrl (pyStrip f) = true
        · simp [hv, ih]
        · have hv2 : validUrl (pyStrip f) = false := by simpa using hv
          simp [hv2, ih]
  · intro oracle urls
    unfold crawl_csv_batch
    rw [batch_loop_calls oracle urls 0 _]
    simp
  · intro oracle pre post u hpost
    unfold crawl_csv_batch
    rw [batch_loop_append oracle pre (u :: post) 0 _]
    simp only [batch_loop]
    rw [batch_loop_untouched oracle post _ _ u hpost]
    rw [dictLookup_insert_self]
    simp

/-- Witness for C10 on a CSV with the same URL on two lines and an oracle
that errors on the first crawl only: the reader keeps both occurrences, both
are crawled, and the retained entry is the second (successful) one. -/
theorem csv_duplicates_last_retained_witness :
    validUrl "http://a.com" = true ∧
    read_urls_from_rows [["http://a.com"], ["http://a.com"]] =
      ["http://a.com", "http://a.com"] ∧
    read_urls_from_rows [["http://a.com"], ["http://a.com"]] =
      ([["http://a.com"], ["http://a.com"]].filterMap fun row => row.head?.map pyStrip).filter
        (fun s => validUrl s) ∧
    (crawl_csv_batch oracleBoom ["http://a.com", "http://a.com"]).calls =
      ["http://a.com", "http://a.com"] ∧
    "http://a.com" ∉ ([] : List String) ∧
    dictLookup (crawl_csv_batch oracleBoom (["http://a.com"] ++ "http://a.com" :: [])).dict
      "http://a.com" = some (entryFor (oracleBoom 1 "http://a.com")) := by
  refine ⟨by decide, by decide, ?_, ?_, ?_, ?_⟩
  · exact csv_duplicates_last_retained.1 [["http://a.com"], ["http://a.com"]]
  · exact csv_duplicates_last_retained.2.1 oracleBoom ["http://a.com", "http://a.com"]
  · exact List.not_mem_nil "http://a.com"
  · have h := csv_duplicates_last_retained.2.2 oracleBoom ["http://a.com"] []
      "http://a.com" (List.not_mem_nil "http://a.com")
    simpa using h

/-! ## C9: the sanitize_filename contract -/

/-- The sanitized stem depends on the URL only through its netloc, its path
and the first 50 characters of its query. -/
lemma sanitizeStem_depends (u1 u2 : String)
    (hn : (urlparse u1).netloc = (urlparse u2).netloc)
    (hp : (urlparse u1).path = (urlparse u2).path)
    (hq : (urlparse u1).query.data.take 50 = (urlparse u2).query.data.take 50) :
    sanitizeStemL u1 = sanitizeStemL u2 := by
  have hempty : (urlparse u1).query.data.isEmpty = (urlparse u2).query.data.isEmpty := by
    cases h1 : (urlparse u1).query.data with
    | nil =>
      cases h2 : (urlparse u2).query.data with
      | nil => rfl
      | cons c cs => rw [h1, h2] at hq; simp at hq
    | cons c cs =>
      cases h2 : (urlparse u2).query.data with
      | nil => rw [h1, h2] at hq; simp at hq
      | cons d ds => rfl
  simp only [sanitizeStemL, hn, hp, hempty, hq]

/-- C9.  `sanitize_filename` derives the name from the URL's host, path and
query truncated to 50 characters; if the sanitized stem is empty it falls
back to a hash-derived name; the name is capped at `150 - 3` characters
before the 3-character `.md` extension is appended, so the total length
never exceeds 150. -/
theorem sanitize_filename_contract (pyHash : String → Nat) (url : String) :
    (sanitize_filename pyHash url).length ≤ 150 ∧
    (∃ base : List Char,
      sanitize_filename pyHash url = String.mk (base ++ ".md".data) ∧
      base.length ≤ 150 - 3 ∧
      base = (if (sanitizeStemL url).isEmpty then
          "url_".data ++ (toString (pyHash url)).data
        else sanitizeStemL url).take (150 - 3)) ∧
    (∀ url2 : String, (urlparse url2).netloc = (urlparse url).netloc →
      (urlparse url2).path = (urlparse url).path →
      (urlparse url2).query.data.take 50 = (urlparse url).query.data.take 50 →
      (sanitizeStemL url).isEmpty = false →
      sanitize_filename pyHash url2 = sanitize_filename pyHash url) := by
  refine ⟨?_, ?_, ?_⟩
  · show (String.mk _).length ≤ 150
    have h1 : ((if (sanitizeStemL url).isEmpty then
        "url_".data ++ (toString (pyHash url)).data
      else sanitizeStemL url).take (150 - 3)).length ≤ 150 - 3 :=
      List.length_take_le (150 - 3) _
    calc (String.mk ((if (sanitizeStemL url).isEmpty then
            "url_".data ++ (toString (pyHash url)).data
          else sanitizeStemL url).take (150 - 3) ++ ".md".data)).length
        = ((if (sanitizeStemL url).isEmpty then
            "url_".data ++ (toString (pyHash url)).data
          else sanitizeStemL url).take (150 - 3)).length + 3 := by
          simp [String.length]
      _ ≤ 150 := by omega
  · exact ⟨_, rfl, List.length_take_le (150 - 3) _, rfl⟩
  · intro url2 hn hp hq hne
    have hstem : sanitizeStemL url2 = sanitizeStemL url :=
      sanitizeStem_depends url2 url hn hp hq
    show String.mk _ = String.mk _
    rw [hstem, hne]
    simp

/-- Witness for C9: two URLs sharing host, path and the first 50 query
characters but diverging afterwards sanitize to the same name, of total
length at most 150 and ending in `.md`. -/
def urlQ1 : String :=
  "http://a.com/p?" ++ String.mk (List.replicate 50 'q') ++ "AAA"

def urlQ2 : String :=
  "http://a.com/p?" ++ String.mk (List.replicate 50 'q') ++ "BBB"

theorem sanitize_filename_contract_witness :
    (urlparse urlQ2).netloc = (urlparse urlQ1).netloc ∧
    (urlparse urlQ2).path = (urlparse urlQ1).path ∧
    (urlparse urlQ2).query.data.take 50 = (urlparse urlQ1).query.data.take 50 ∧
    (sanitizeStemL urlQ1).isEmpty = false ∧
    sanitize_filename (fun _ => 0) urlQ2 = sanitize_filename (fun _ => 0) urlQ1 ∧
    (sanitize_filename (fun _ => 0) urlQ1).length ≤ 150 := by
  refine ⟨by decide, by decide, by decide, by decide, ?_, ?_⟩
  · exact (sanitize_filename_contract (fun _ => 0) urlQ1).2.2 urlQ2
      (by decide) (by decide) (by decide) (by decide)
  · exact (sanitize_filename_contract (fun _ => 0) urlQ1).1

/-! ## C6: cleaning is not idempotent in general

Nested empty parentheses break idempotence: `re.sub(r'\(\)', '', _)`
replaces non-overlapping matches left to right, so one pass turns `(())`
into `()` and only a second pass removes the rest.  The amended statement:
on marker-free text — no `[`, `(`, `*`, `_`, `#`, `>`, `:` and no newline —
every markup rule is the identity, the cleaner reduces to whitespace
collapsing plus trimming, and that is idempotent. -/

/-- Characters that cannot start or participate in any markup-rule match:
everything except the markup trigger characters. -/
def plainChar (c : Char) : Bool :=
  !(c = '[' || c = '(' || c = '*' || c = '_' || c = '#' || c = '>' ||
    c = ':' || c = '\n')

/-- All characters of the list are plain. -/
def PlainL (s : List Char) : Prop := ∀ c ∈ s, plainChar c = true

lemma plainL_tail {c : Char} {cs : List Char} (h : PlainL (c :: cs)) : PlainL cs :=
  fun d hd => h d (List.mem_cons.2 (Or.inr hd))

lemma plainL_not {s : List Char} (h : PlainL s) {c : Char}
    (hc : plainChar c = false) : c ∉ s := by
  intro hmem
  rw [h c hmem] at hc
  exact absurd hc (by simp)

/-- Characters of a Boolean prefix are members of the larger list. -/
lemma isPrefixOf_subset {p t : List Char} (h : p.isPrefixOf t = true) :
    ∀ c ∈ p, c ∈ t :=
  fun _ hc => (List.isPrefixOf_iff_prefix.1 h).subset hc

lemma tryImage_none (t : List Char) (h : PlainL t) : tryImage t = none := by
  unfold tryImage
  split
  · exfalso
    exact plainL_not h (show plainChar '[' = false by decide) (by simp)
  · rfl

lemma imageRule_none (t : List Char) (h : PlainL t) : imageRule t = none := by
  rw [imageRule, tryImage_none t h]
  rfl

lemma tryLink_none (t : List Char) (h : PlainL t) : tryLink t = none := by
  unfold tryLink
  split
  · exfalso
    exact plainL_not h (show plainChar '[' = false by decide) (by simp)
  · rfl

lemma matchHttpPrefix_none (t : List Char) (h : PlainL t) :
    matchHttpPrefix t = none := by
  have h1 : ¬ ("https://".data.isPrefixOf t = true) := fun hp =>
    plainL_not h (show plainChar ':' = false by decide)
      (isPrefixOf_subset hp ':' (by decide))
  have h2 : ¬ ("http://".data.isPrefixOf t = true) := fun hp =>
    plainL_not h (show plainChar ':' = false by decide)
      (isPrefixOf_subset hp ':' (by decide))
  unfold matchHttpPrefix
  rw [if_neg h1, if_neg h2]

lemma tryBareUrl_none (t : List Char) (h : PlainL t) : tryBareUrl t = none := by
  unfold tryBareUrl
  rw [matchHttpPrefix_none t h]

lemma tryFootnoteRef_none (t : List Char) (h : PlainL t) :
    tryFootnoteRef t = none := by
  unfold tryFootnoteRef
  split
  · exfalso
    exact plainL_not h (show plainChar '[' = false by decide) (by simp)
  · rfl

lemma footnoteRefRule_none (t : List Char) (h : PlainL t) :
    footnoteRefRule t = none := by
  rw [footnoteRefRule, tryFootnoteRef_none t h]
  rfl

lemma tryFootnoteDef_none (t : List Char) (h : PlainL t) :
    tryFootnoteDef t = none := by
  unfold tryFootnoteDef
  split
  · exfalso
    exact plainL_not h (show plainChar '[' = false by decide) (by simp)
  · rfl

lemma wsPrefixThenGt_none : ∀ (k : Nat) (t : List Char), PlainL t →
    wsPrefixThenGt k t = none := by
  intro k
  induction k with
  | zero =>
    intro t h
    unfold wsPrefixThenGt
    split
    · exfalso
      exact plainL_not h (show plainChar '>' = false by decide) (by simp)
    · rfl
  | succ k ih =>
    intro t h
    cases t with
    | nil => rfl
    | cons c cs =>
      unfold wsPrefixThenGt
      dsimp only
      by_cases hc : pyWs c = true
      · rw [if_pos hc]
        exact ih cs (plainL_tail h)
      · rw [if_neg hc]

lemma tryBlockquote_none (t : List Char) (h : PlainL t) : tryBlockquote t = none := by
  unfold tryBlockquote
  rw [wsPrefixThenGt_none 3 t h, wsPrefixThenGt_none 2 t h,
    wsPrefixThenGt_none 1 t h, wsPrefixThenGt_none 0 t h]
  rfl

lemma tryEmphWith_none (d t : List Char) (c : Char) (hcd : c ∈ d)
    (hcp : plainChar c = false) (h : PlainL t) : tryEmphWith d t = none := by
  unfold tryEmphWith
  rw [if_neg]
  intro hp
  exact plainL_not h hcp (isPrefixOf_subset hp c hcd)

lemma tryEmphStar_none (t : List Char) (h : PlainL t) :
    tryEmph "**".data "__".data t = none := by
  unfold tryEmph
  rw [tryEmphWith_none "**".data t '*' (by decide) (by decide) h,
    tryEmphWith_none "__".data t '_' (by decide) (by decide) h]

lemma tryEmphUnder_none (t : List Char) (h : PlainL t) :
    tryEmph "*".data "_".data t = none := by
  unfold tryEmph
  rw [tryEmphWith_none "*".data t '*' (by decide) (by decide) h,
    tryEmphWith_none "_".data t '_' (by decide) (by decide) h]

lemma tryHeading_none (t : List Char) (h : PlainL t) : tryHeading t = none := by
  unfold tryHeading
  split
  · rename_i rest2 heq
    exfalso
    have hmem : '#' ∈ t := by
      have hsub := (List.dropWhile_sublist (l := t) pyWs).subset
      exact hsub (heq ▸ List.mem_cons.2 (Or.inl rfl))
    exact plainL_not h (show plainChar '#' = false by decide) hmem
  · rfl

lemma tryParens_none (t : List Char) (h : PlainL t) : tryParens t = none := by
  unfold tryParens
  split
  · exfalso
    exact plainL_not h (show plainChar '(' = false by decide) (by simp)
  · rfl

lemma parenRule_none (t : List Char) (h : PlainL t) : parenRule t = none := by
  rw [parenRule, tryParens_none t h]
  rfl

lemma tryBlankLines_none (t : List Char) (h : PlainL t) : tryBlankLines t = none := by
  unfold tryBlankLines
  split
  · exfalso
    exact plainL_not h (show plainChar '\n' = false by decide) (by simp)
  · rfl

lemma blankLineRule_none (t : List Char) (h : PlainL t) : blankLineRule t = none := by
  rw [blankLineRule, tryBlankLines_none t h]
  rfl

/-- A scanner whose rule never fires on plain text is the identity. -/
lemma scanGo_id (tryRule : List Char → Option (List Char × List Char))
    (htry : ∀ t, PlainL t → tryRule t = none) :
    ∀ (n : Nat) (s : List Char), PlainL s → scanGo tryRule n s = s := by
  intro n
  induction n with
  | zero => intro s _; rfl
  | succ k ih =>
    intro s h
    cases s with
    | nil => rfl
    | cons c cs =>
      unfold scanGo
      rw [htry (c :: cs) h]
      rw [ih cs (plainL_tail h)]

/-- A line-anchored scanner whose rule never fires on plain text is the
identity (for any line-start flag). -/
lemma lineScanGo_id (tryRule : List Char → Option (List Char))
    (htry : ∀ t, PlainL t → tryRule t = none) :
    ∀ (n : Nat) (b : Bool) (s : List Char), PlainL s → lineScanGo tryRule n b s = s := by
  intro n
  induction n with
  | zero => intro b s _; rfl
  | succ k ih =>
    intro b s h
    cases s with
    | nil => rfl
    | cons c cs =>
      unfold lineScanGo
      by_cases hb : b = true
      · rw [if_pos hb, htry (c :: cs) h]
        rw [ih (c = '\n') cs (plainL_tail h)]
      · rw [if_neg hb]
        rw [ih (c = '\n') cs (plainL_tail h)]

/-- The bare-URL scanner is the identity on plain text (for any lookbehind
registers). -/
lemma bareUrlsGo_id : ∀ (n : Nat) (p2 p1 : Option Char) (s : List Char), PlainL s →
    bareUrlsGo n p2 p1 s = s := by
  intro n
  induction n with
  | zero => intro p2 p1 s _; rfl
  | succ k ih =>
    intro p2 p1 s h
    cases s with
    | nil => rfl
    | cons c cs =>
      unfold bareUrlsGo
      by_cases hb : (p2 = some ']' && p1 = some '(') = true
      · rw [if_pos hb]
        rw [ih p1 (some c) cs (plainL_tail h)]
      · rw [if_neg hb, tryBareUrl_none (c :: cs) h]
        rw [ih p1 (some c) cs (plainL_tail h)]

/-- On plain text the cleaner reduces to space collapsing plus trimming. -/
lemma cleanList_plain (s : List Char) (h : PlainL s) :
    cleanList s = pyStripL (collapseSpaces s) := by
  unfold cleanList
  dsimp only
  rw [scanGo_id imageRule imageRule_none (s.length + 1) s h]
  rw [scanGo_id tryLink tryLink_none (s.length + 1) s h]
  rw [bareUrlsGo_id (s.length + 1) none none s h]
  rw [scanGo_id footnoteRefRule footnoteRefRule_none (s.length + 1) s h]
  rw [lineScanGo_id tryFootnoteDef tryFootnoteDef_none (s.length + 1) true s h]
  rw [lineScanGo_id tryBlockquote tryBlockquote_none (s.length + 1) true s h]
  rw [scanGo_id (tryEmph "**".data "__".data) tryEmphStar_none (s.length + 1) s h]
  rw [scanGo_id (tryEmph "*".data "_".data) tryEmphUnder_none (s.length + 1) s h]
  rw [lineScanGo_id tryHeading tryHeading_none (s.length + 1) true s h]
  rw [scanGo_id parenRule parenRule_none (s.length + 1) s h]
  rw [scanGo_id blankLineRule blankLineRule_none (s.length + 1) s h]

/-- The invariant of space-collapsed text: no tab, and no space directly
followed by another space. -/
def NoSpRun : List Char → Prop
  | [] => True
  | c :: cs => c ≠ '\t' ∧ ¬(c = ' ' ∧ cs.head? = some ' ') ∧ NoSpRun cs

/-- The space collapser establishes `NoSpRun`, and its output in run-skipping
mode never starts with a space or tab. -/
lemma collapseSpacesGo_props : ∀ s : List Char,
    NoSpRun (collapseSpacesGo false s) ∧ NoSpRun (collapseSpacesGo true s) ∧
    (∀ c t, collapseSpacesGo true s = c :: t → spTab c = false) ∧
    (∀ c t, collapseSpacesGo false s = c :: t → spTab c = false ∨ c = ' ') := by
  intro s
  induction s with
  | nil =>
    refine ⟨trivial, trivial, ?_, ?_⟩
    · intro c t h; simp [collapseSpacesGo] at h
    · intro c t h; simp [collapseSpacesGo] at h
  | cons c cs ih =>
    by_cases hc : spTab c = true
    · have e1 : collapseSpacesGo false (c :: cs) = ' ' :: collapseSpacesGo true cs := by
        rw [collapseGo_false_cons, if_pos hc]
      have e2 : collapseSpacesGo true (c :: cs) = collapseSpacesGo true cs := by
        rw [collapseGo_true_cons, if_pos hc]
      refine ⟨?_, ?_, ?_, ?_⟩
      · rw [e1]
        refine ⟨by decide, ?_, ih.2.1⟩
        rintro ⟨-, hh⟩
        cases hgt : collapseSpacesGo true cs with
        | nil => rw [hgt] at hh; simp at hh
        | cons d t =>
          rw [hgt] at hh
          simp only [List.head?_cons, Option.some.injEq] at hh
          have hd := ih.2.2.1 d t hgt
          rw [hh] at hd
          simp [spTab] at hd
      · rw [e2]; exact ih.2.1
      · intro d t hdt; rw [e2] at hdt; exact ih.2.2.1 d t hdt
      · intro d t hdt
        rw [e1] at hdt
        injection hdt with h1 _
        exact Or.inr h1.symm
    · have e1 : collapseSpacesGo false (c :: cs) = c :: collapseSpacesGo false cs := by
        rw [collapseGo_false_cons, if_neg hc]
      have e2 : collapseSpacesGo true (c :: cs) = c :: collapseSpacesGo false cs := by
        rw [collapseGo_true_cons, if_neg hc]
      have hct : c ≠ '\t' := fun he => hc (by rw [he]; decide)
      have hcs : c ≠ ' ' := fun he => hc (by rw [he]; decide)
      have hns : NoSpRun (c :: collapseSpacesGo false cs) := by
        refine ⟨hct, ?_, ih.1⟩
        rintro ⟨he, -⟩
        exact hcs he
      refine ⟨?_, ?_, ?_, ?_⟩
      · rw [e1]; exact hns
      · rw [e2]; exact hns
      · intro d t hdt
        rw [e2] at hdt
        injection hdt with h1 _
        rw [← h1]
        simpa using hc
      · intro d t hdt
        rw [e1] at hdt
        injection hdt with h1 _
        rw [← h1]
        exact Or.inl (by simpa using hc)

lemma noSpRun_append_right : ∀ xs ys : List Char, NoSpRun (xs ++ ys) → NoSpRun ys := by
  intro xs
  induction xs with
  | nil => intro ys h; exact h
  | cons c cs ih => intro ys h; exact ih ys h.2.2

lemma noSpRun_append_left : ∀ xs ys : List Char, NoSpRun (xs ++ ys) → NoSpRun xs := by
  intro xs
  induction xs with
  | nil => intro ys _; exact trivial
  | cons c cs ih =>
    intro ys h
    refine ⟨h.1, ?_, ih ys h.2.2⟩
    rintro ⟨hc, hh⟩
    cases cs with
    | nil => simp at hh
    | cons d t =>
      simp only [List.head?_cons, Option.some.injEq] at hh
      exact h.2.1 ⟨hc, by simp [hh]⟩

lemma noSpRun_dropWhile (p : Char → Bool) (l : List Char) (h : NoSpRun l) :
    NoSpRun (l.dropWhile p) := by
  rcases List.dropWhile_suffix (l := l) p with ⟨xs, hxs⟩
  rw [← hxs] at h
  exact noSpRun_append_right xs _ h

/-- `dropRightWhileL` returns a prefix of its input. -/
lemma dropRightWhileL_front (p : Char → Bool) (l : List Char) :
    ∃ ys, dropRightWhileL p l ++ ys = l := by
  rcases List.dropWhile_suffix (l := l.reverse) p with ⟨xs, hxs⟩
  refine ⟨xs.reverse, ?_⟩
  have h2 := congrArg List.reverse hxs
  simpa [List.reverse_append, dropRightWhileL] using h2

lemma noSpRun_dropRight (p : Char → Bool) (l : List Char) (h : NoSpRun l) :
    NoSpRun (dropRightWhileL p l) := by
  rcases dropRightWhileL_front p l with ⟨ys, hys⟩
  rw [← hys] at h
  exact noSpRun_append_left _ ys h

/-- On text already satisfying `NoSpRun`, the space collapser does
nothing. -/
lemma collapseGo_false_id : ∀ y : List Char, NoSpRun y → collapseSpacesGo false y = y := by
  intro y
  induction y with
  | nil => intro _; rfl
  | cons c cs ih =>
    intro h
    by_cases hc : spTab c = true
    · have hcsp : c = ' ' := by
        rcases (show c = ' ' ∨ c = '\t' by simpa [spTab] using hc) with h1 | h1
        · exact h1
        · exact absurd h1 h.1
      have e1 : collapseSpacesGo false (c :: cs) = ' ' :: collapseSpacesGo true cs := by
        rw [collapseGo_false_cons, if_pos hc]
      rw [e1, hcsp]
      congr 1
      cases cs with
      | nil => rfl
      | cons d t =>
        have hds : d ≠ ' ' := by
          intro he
          exact h.2.1 ⟨hcsp, by simp [he]⟩
        have hdt : d ≠ '\t' := h.2.2.1
        have hd : ¬ spTab d = true := by simp [spTab, hds, hdt]
        have e2 : collapseSpacesGo true (d :: t) = d :: collapseSpacesGo false t := by
          rw [collapseGo_true_cons, if_neg hd]
        have e3 : collapseSpacesGo false (d :: t) = d :: collapseSpacesGo false t := by
          rw [collapseGo_false_cons, if_neg hd]
        have h4 := ih h.2.2
        rw [e3] at h4
        injection h4 with _ h5
        rw [e2, h5]
    · have e1 : collapseSpacesGo false (c :: cs) = c :: collapseSpacesGo false cs := by
        rw [collapseGo_false_cons, if_neg hc]
      rw [e1, ih h.2.2]

lemma dropWhile_dropWhile (p : Char → Bool) : ∀ l : List Char,
    List.dropWhile p (List.dropWhile p l) = List.dropWhile p l := by
  intro l
  induction l with
  | nil => rfl
  | cons c cs ih =>
    rw [List.dropWhile_cons]
    by_cases hc : p c = true
    · rw [if_pos hc]; exact ih
    · rw [if_neg hc, List.dropWhile_cons, if_neg hc]

/-- The head of a `dropWhile` result fails the predicate. -/
lemma head_dropWhile_false (p : Char → Bool) (l : List Char) :
    ∀ c cs, List.dropWhile p l = c :: cs → p c = false := by
  intro c cs h
  have h2 := dropWhile_dropWhile p l
  rw [h, List.dropWhile_cons] at h2
  by_cases hc : p c = true
  · rw [if_pos hc] at h2
    have h3 := congrArg List.length h2
    have hle := (List.dropWhile_sublist (l := cs) p).length_le
    simp at h3
    omega
  · simpa using hc

lemma dropWhile_eq_self_of_head (p : Char → Bool) (l : List Char)
    (h : ∀ c cs, l = c :: cs → p c = false) : List.dropWhile p l = l := by
  cases l with
  | nil => rfl
  | cons c cs => rw [List.dropWhile_cons, if_neg (by simp [h c cs rfl])]

lemma dropRight_dropRight (p : Char → Bool) (l : List Char) :
    dropRightWhileL p (dropRightWhileL p l) = dropRightWhileL p l := by
  unfold dropRightWhileL
  rw [List.reverse_reverse, dropWhile_dropWhile]

/-- `str.strip()` is idempotent. -/
lemma pyStripL_idem (y : List Char) : pyStripL (pyStripL y) = pyStripL y := by
  unfold pyStripL
  have hhead : ∀ c cs,
      dropRightWhileL pyWs (List.dropWhile pyWs y) = c :: cs → pyWs c = false := by
    intro c cs h
    rcases dropRightWhileL_front pyWs (List.dropWhile pyWs y) with ⟨ys, hys⟩
    rw [h] at hys
    exact head_dropWhile_false pyWs y c (cs ++ ys) (by
      rw [← hys]
      simp)
  rw [dropWhile_eq_self_of_head pyWs _ hhead, dropRight_dropRight]

lemma mem_collapseGo : ∀ (s : List Char) (b : Bool) (c : Char),
    c ∈ collapseSpacesGo b s → c ∈ s ∨ c = ' ' := by
  intro s
  induction s with
  | nil =>
    intro b c h
    cases b <;> simp [collapseSpacesGo] at h
  | cons d t ih =>
    intro b c h
    by_cases hd : spTab d = true
    · have hb : collapseSpacesGo b (d :: t) = ' ' :: collapseSpacesGo true t ∨
          collapseSpacesGo b (d :: t) = collapseSpacesGo true t := by
        cases b with
        | false => left; rw [collapseGo_false_cons, if_pos hd]
        | true => right; rw [collapseGo_true_cons, if_pos hd]
      rcases hb with hb | hb
      · rw [hb] at h
        rcases List.mem_cons.1 h with h | h
        · exact Or.inr h
        · rcases ih true c h with h | h
          · exact Or.inl (List.mem_cons.2 (Or.inr h))
          · exact Or.inr h
      · rw [hb] at h
        rcases ih true c h with h | h
        · exact Or.inl (List.mem_cons.2 (Or.inr h))
        · exact Or.inr h
    · have hb : collapseSpacesGo b (d :: t) = d :: collapseSpacesGo false t := by
        cases b with
        | false => rw [collapseGo_false_cons, if_neg hd]
        | true => rw [collapseGo_true_cons, if_neg hd]
      rw [hb] at h
      rcases List.mem_cons.1 h with h | h
      · exact Or.inl (List.mem_cons.2 (Or.inl h))
      · rcases ih false c h with h | h
        · exact Or.inl (List.mem_cons.2 (Or.inr h))
        · exact Or.inr h

lemma mem_pyStripL (y : List Char) (c : Char) (h : c ∈ pyStripL y) : c ∈ y := by
  unfold pyStripL dropRightWhileL at h
  rw [List.mem_reverse] at h
  have h2 := (List.dropWhile_sublist (l := (List.dropWhile pyWs y).reverse) pyWs).subset h
  rw [List.mem_reverse] at h2
  exact (List.dropWhile_sublist (l := y) pyWs).subset h2

/-- Cleaning plain text yields plain text (only spaces can be
introduced). -/
lemma plainL_cleanList (s : List Char) (h : PlainL s) : PlainL (cleanList s) := by
  rw [cleanList_plain s h]
  intro c hc
  have h1 := mem_pyStripL _ c hc
  rcases mem_collapseGo s false c h1 with h2 | h2
  · exact h c h2
  · rw [h2]; decide

/-- C6 counterexample: `clean_markdown` is not idempotent — one pass over
`(())` leaves `()` (non-overlapping matches of `re.sub(r'\(\)', '', _)`),
which a second pass removes. -/
theorem clean_markdown_not_idempotent :
    clean_markdown (clean_markdown "(())") ≠ clean_markdown "(())" ∧
    clean_markdown "(())" = "()" ∧ clean_markdown "()" = "" := by
  refine ⟨by decide, by decide, by decide⟩

set_option maxHeartbeats 1000000 in
/-- C6 (amended).  On marker-free text — no `[`, `(`, `*`, `_`, `#`, `>`,
`:` and no newline — every markup rule of the cleaner is the identity, the
cleaner reduces to whitespace collapsing and trimming, and a second
application returns its input unchanged. -/
theorem clean_markdown_plain_idempotent (s : String)
    (h : s.data.all plainChar = true) :
    clean_markdown (clean_markdown s) = clean_markdown s := by
  have hP : PlainL s.data := fun c hc => List.all_eq_true.1 h c hc
  have hPt : PlainL (cleanList s.data) := plainL_cleanList s.data hP
  have ht : cleanList s.data = pyStripL (collapseSpaces s.data) := cleanList_plain _ hP
  have hNo : NoSpRun (collapseSpaces s.data) := (collapseSpacesGo_props s.data).1
  have hNoT : NoSpRun (cleanList s.data) := by
    rw [ht]
    unfold pyStripL
    exact noSpRun_dropRight pyWs _ (noSpRun_dropWhile pyWs _ hNo)
  have hcoll : collapseSpaces (cleanList s.data) = cleanList s.data :=
    collapseGo_false_id _ hNoT
  have hstrip : pyStripL (cleanList s.data) = cleanList s.data := by
    rw [ht]; exact pyStripL_idem _
  have hmain : cleanList (cleanList s.data) = cleanList s.data := by
    calc cleanList (cleanList s.data)
        = pyStripL (collapseSpaces (cleanList s.data)) := cleanList_plain _ hPt
      _ = pyStripL (cleanList s.data) := by rw [hcoll]
      _ = cleanList s.data := hstrip
  show String.mk (cleanList (cleanList s.data)) = String.mk (cleanList s.data)
  rw [hmain]

/-- Witness for the amended C6 at a concrete marker-free string. -/
theorem clean_markdown_plain_idempotent_witness :
    ("hello \t world".data.all plainChar = true) ∧
    clean_markdown (clean_markdown "hello \t world") = clean_markdown "hello \t world" :=
  ⟨by decide, clean_markdown_plain_idempotent "hello \t world" (by decide)⟩

end Crawler
